import Mathlib

/-!
# Verification of the AI code-review bot core pipeline

Shallow embedding of the review core of the `ai-code-review-bot` repository:
the unified-diff parser (`src/lib/review/diff-parser.ts`), the comment mapper
and the context builder (`src/lib/review/comment-mapper.ts`,
`src/lib/review/context-builder.ts`), and the review orchestrator
(`src/lib/review/engine.ts` together with the persistence helpers in
`src/lib/db/queries.ts`).

TypeScript strings are embedded as Lean `String`; the handful of string
operations the source uses (`startsWith`, `slice`, `split`, `trim`,
`includes`, `endsWith`) are re-implemented structurally over `String.data`
so that every definition reduces by evaluation.  JavaScript numbers that
carry line positions are embedded as `Int` (the source subtracts, so `Nat`
truncation would be unfaithful); counters and sizes that the source only
ever increments are embedded as `Nat`.
-/

namespace AiReview

/-! ## String primitives (JS semantics, structural recursion) -/

/-- JS `s.startsWith(pre)`. -/
def strStartsWith (s pre : String) : Bool :=
  pre.data.isPrefixOf s.data

/-- JS `s.slice(n)` for a nonnegative `n`: drop the first `n` UTF-16 units
(for the ASCII marker strings used by the parser this is the first `n`
characters). -/
def strDrop (s : String) (n : Nat) : String :=
  ⟨s.data.drop n⟩

/-- JS `s.length` (character count; identical for the ASCII markers used). -/
def strLength (s : String) : Nat :=
  s.data.length

/-- JS whitespace test used by `trim` and by the `\s` class of the hunk-header
regular expression (the ASCII subset, which is all that occurs in diff text). -/
def isJsWhitespace (c : Char) : Bool :=
  c = ' ' || c = '\t' || c = '\n' || c = '\r' || c = '\u000b' || c = '\u000c'

/-- JS `s.trim()`. -/
def strTrim (s : String) : String :=
  ⟨((s.data.dropWhile isJsWhitespace).reverse.dropWhile isJsWhitespace).reverse⟩

/-- Split a character list at every occurrence of `sep`. -/
def splitCharAux (sep : Char) : List Char → List Char → List (List Char)
  | [], acc => [acc.reverse]
  | c :: cs, acc =>
    if c = sep then acc.reverse :: splitCharAux sep cs []
    else splitCharAux sep cs (c :: acc)

/-- JS `s.split("\n")`. -/
def strSplitNl (s : String) : List String :=
  (splitCharAux '\n' s.data []).map String.mk

/-- Substring test over character lists (JS `s.includes(pat)`). -/
def containsAux (pat : List Char) : List Char → Bool
  | [] => pat.isEmpty
  | c :: t => pat.isPrefixOf (c :: t) || containsAux pat t

/-- JS `s.includes(pat)`. -/
def strContains (s pat : String) : Bool :=
  containsAux pat.data s.data

/-- JS `s.endsWith(suf)`. -/
def strEndsWith (s suf : String) : Bool :=
  suf.data.reverse.isPrefixOf s.data.reverse

/-- Join a list of line strings with `"\n"` separators. -/
def joinNl (parts : List String) : String :=
  ⟨List.intercalate ['\n'] (parts.map String.data)⟩

/-! ## Diff parser data model (`src/types/review.ts`) -/

inductive DiffLineType
  | added
  | removed
  | context
deriving DecidableEq, Repr

structure DiffLine where
  type : DiffLineType
  content : String
  /-- The 1-based line number in the new file (null for removed lines). -/
  newLineNumber : Option Int
  /-- The 1-based line number in the old file (null for added lines). -/
  oldLineNumber : Option Int
deriving DecidableEq, Repr

structure DiffHunk where
  oldStart : Int
  oldCount : Int
  newStart : Int
  newCount : Int
  header : String
  lines : List DiffLine
deriving DecidableEq, Repr

inductive FileChangeType
  | added
  | modified
  | deleted
  | renamed
deriving DecidableEq, Repr

inductive SupportedLanguage
  | typescript
  | javascript
  | python
  | go
  | rust
  | java
deriving DecidableEq, Repr

structure ParsedDiffFile where
  filePath : String
  previousFilePath : Option String
  changeType : FileChangeType
  language : Option SupportedLanguage
  hunks : List DiffHunk
  isBinary : Bool
deriving DecidableEq, Repr

structure ParsedDiff where
  files : List ParsedDiffFile
deriving DecidableEq, Repr

inductive DiffParseError
  | DIFF_EMPTY
deriving DecidableEq, Repr

/-! ## Diff parser (`src/lib/review/diff-parser.ts`) -/

/-- Source `NON_REVIEWABLE_PATTERNS`: each regular expression of the source list,
translated to the substring / suffix / prefix test it denotes. -/
def matchesNonReviewablePattern (filePath : String) : Bool :=
  -- /[-.]lock\./
  (strContains filePath "-lock." || strContains filePath ".lock.") ||
  -- /\.lock$/
  strEndsWith filePath ".lock" ||
  strEndsWith filePath ".min.js" ||
  strEndsWith filePath ".min.css" ||
  strEndsWith filePath ".wasm" ||
  strEndsWith filePath ".png" ||
  -- /\.jpe?g$/
  (strEndsWith filePath ".jpg" || strEndsWith filePath ".jpeg") ||
  strEndsWith filePath ".gif" ||
  strEndsWith filePath ".svg" ||
  strEndsWith filePath ".ico" ||
  strEndsWith filePath ".webp" ||
  strEndsWith filePath ".map" ||
  -- /^src\/generated\//  and  /^node_modules\//
  strStartsWith filePath "src/generated/" ||
  strStartsWith filePath "node_modules/"

def isReviewableFile (filePath : String) : Bool :=
  !matchesNonReviewablePattern filePath

/-- The characters after the last `'.'` of the list, if any
(JS `filePath.lastIndexOf(".")` then `slice(dotIndex)` without the dot). -/
def afterLastDot : List Char → Option (List Char)
  | [] => none
  | c :: cs =>
    match afterLastDot cs with
    | some r => some r
    | none => if c = '.' then some cs else none

/-- Source `LANGUAGE_EXTENSIONS` lookup on the extension (dot included). -/
def languageForExtension (ext : String) : Option SupportedLanguage :=
  if ext = ".ts" then some .typescript
  else if ext = ".tsx" then some .typescript
  else if ext = ".js" then some .javascript
  else if ext = ".jsx" then some .javascript
  else if ext = ".mjs" then some .javascript
  else if ext = ".cjs" then some .javascript
  else if ext = ".py" then some .python
  else if ext = ".go" then some .go
  else if ext = ".rs" then some .rust
  else if ext = ".java" then some .java
  else none

def detectLanguageFromFilePath (filePath : String) : Option SupportedLanguage :=
  match afterLastDot filePath.data with
  | none => none
  | some rest => languageForExtension ⟨'.' :: rest⟩

/-- Result of matching `HUNK_HEADER_REGEX`:
`/^@@\s+-(\d+)(?:,(\d+))?\s+\+(\d+)(?:,(\d+))?\s+@@(.*)$/` — the four numeric
capture groups (groups 2 and 4 optional). -/
structure HunkHeaderMatch where
  g1 : Nat
  g2 : Option Nat
  g3 : Nat
  g4 : Option Nat
deriving DecidableEq, Repr

/-- Numeric value of a digit run (`Number.parseInt` on a `\d+` capture). -/
def digitsToNat (ds : List Char) : Nat :=
  ds.foldl (fun acc c => 10 * acc + (c.toNat - '0'.toNat)) 0

/-- Match `-(\d+)(?:,(\d+))?` resp. `+(\d+)(?:,(\d+))?`: sign character, a
digit run, optionally a comma and a second digit run.  Returns the two groups
and the remaining characters. -/
def matchNumPair (sign : Char) (l : List Char) :
    Option (Nat × Option Nat × List Char) :=
  match l with
  | c :: rest =>
    if c = sign then
      let ds := rest.takeWhile Char.isDigit
      let rest1 := rest.dropWhile Char.isDigit
      if ds.isEmpty then none
      else
        match rest1 with
        | ',' :: rest2 =>
          let ds2 := rest2.takeWhile Char.isDigit
          let rest3 := rest2.dropWhile Char.isDigit
          if ds2.isEmpty then
            -- the optional group fails and `\s+` cannot match the comma
            none
          else some (digitsToNat ds, some (digitsToNat ds2), rest3)
        | _ => some (digitsToNat ds, none, rest1)
    else none
  | [] => none

/-- One-or-more whitespace (`\s+`); fails on zero. -/
def matchWs1 (l : List Char) : Option (List Char) :=
  match l with
  | c :: rest => if isJsWhitespace c then some (rest.dropWhile isJsWhitespace) else none
  | [] => none

/-- Source `HUNK_HEADER_REGEX.exec(line)`: `none` when the line is not a hunk header.
The trailing `(.*)$` group is not carried: `buildDiffHunk` only stores the
whole header line. -/
def hunkHeaderMatch (line : String) : Option HunkHeaderMatch := do
  match line.data with
  | '@' :: '@' :: rest => do
    let rest ← matchWs1 rest
    let (g1, g2, rest) ← matchNumPair '-' rest
    let rest ← matchWs1 rest
    let (g3, g4, rest) ← matchNumPair '+' rest
    let rest ← matchWs1 rest
    match rest with
    | '@' :: '@' :: _ => some ⟨g1, g2, g3, g4⟩
    | _ => none
  | _ => none

/-- The per-raw-line loop of `buildDiffHunk`: walks the accumulated raw lines
with the running old/new line counters and converts each into a `DiffLine` by
its leading character.  The `"\ No newline at end of file"` marker and any
other unprefixed line produce no `DiffLine`. -/
def buildDiffHunkLines : List String → Int → Int → List DiffLine
  | [], _, _ => []
  | raw :: rest, oldLine, newLine =>
    if strStartsWith raw "+" then
      { type := .added, content := strDrop raw 1,
        newLineNumber := some newLine, oldLineNumber := none }
        :: buildDiffHunkLines rest oldLine (newLine + 1)
    else if strStartsWith raw "-" then
      { type := .removed, content := strDrop raw 1,
        newLineNumber := none, oldLineNumber := some oldLine }
        :: buildDiffHunkLines rest (oldLine + 1) newLine
    else if strStartsWith raw " " then
      { type := .context, content := strDrop raw 1,
        newLineNumber := some newLine, oldLineNumber := some oldLine }
        :: buildDiffHunkLines rest (oldLine + 1) (newLine + 1)
    else
      buildDiffHunkLines rest oldLine newLine

/-- Source `buildDiffHunk(header, match, rawLines)`.  Groups 2 and 4 default to `1`
when absent (`match[i] ?? "1"`). -/
def buildDiffHunk (header : String) (m : HunkHeaderMatch)
    (rawLines : List String) : DiffHunk :=
  let oldStart : Int := m.g1
  let oldCount : Int := m.g2.getD 1
  let newStart : Int := m.g3
  let newCount : Int := m.g4.getD 1
  { oldStart, oldCount, newStart, newCount, header,
    lines := buildDiffHunkLines rawLines oldStart newStart }

/-- The loop of `parseHunks`: the second argument is the current hunk state
(`currentHeader`, `currentMatch`, `currentHunkLines`), `none` before the first
header line. -/
def parseHunksAux :
    List String → Option (String × HunkHeaderMatch × List String) → List DiffHunk
  | [], none => []
  | [], some (h, m, cur) => [buildDiffHunk h m cur]
  | line :: rest, st =>
    match hunkHeaderMatch line with
    | some m =>
      match st with
      | none => parseHunksAux rest (some (line, m, []))
      | some (h, pm, cur) =>
        buildDiffHunk h pm cur :: parseHunksAux rest (some (line, m, []))
    | none =>
      match st with
      | none => parseHunksAux rest none
      | some (h, m, cur) => parseHunksAux rest (some (h, m, cur ++ [line]))

def parseHunks (lines : List String) : List DiffHunk :=
  parseHunksAux lines none

/-- The inner loop of `extractFilePath` for the `+++ /dev/null` case: first
`--- a/` line of the block. -/
def findOldPathLine (lines : List String) : Option String :=
  match lines.find? (fun l => strStartsWith l "--- a/") with
  | some l => some (strDrop l (strLength "--- a/"))
  | none => none

/-- The main loop of `extractFilePath`: `some r` means the loop returned `r`
(which may itself be null), `none` means the loop fell through to the
fallback. -/
def extractFilePathScan (all : List String) :
    List String → Option (Option String)
  | [] => none
  | l :: rest =>
    if strStartsWith l "+++ b/" then some (some (strDrop l (strLength "+++ b/")))
    else if strStartsWith l "+++ /dev/null" then some (findOldPathLine all)
    else extractFilePathScan all rest

/-- Rightmost occurrence of `" b/"` in the list with a nonempty remainder:
the capture of the greedy fallback regex `/^a\/.+ b\/(.+)$/` applied after the
leading `a/` and one mandatory `.+` character have been consumed. -/
def lastBSuffix : List Char → Option (List Char)
  | [] => none
  | c :: cs =>
    match lastBSuffix cs with
    | some r => some r
    | none =>
      if c = ' ' && (['b', '/'].isPrefixOf cs) && !(cs.drop 2).isEmpty then
        some (cs.drop 2)
      else none

/-- Source `firstLine.match(/^a\/.+ b\/(.+)$/)`, returning group 1. -/
def matchFallbackPath (line : String) : Option String :=
  match line.data with
  | 'a' :: '/' :: _ :: t1 => (lastBSuffix t1).map String.mk
  | _ => none

def extractFilePath (lines : List String) : Option String :=
  match extractFilePathScan lines lines with
  | some r => r
  | none =>
    match lines with
    | [] => none
    | firstLine :: _ => matchFallbackPath firstLine

def extractPreviousFilePath (lines : List String) : Option String :=
  match lines.find? (fun l => strStartsWith l "rename from ") with
  | some l => some (strDrop l (strLength "rename from "))
  | none =>
    match lines.find? (fun l => strStartsWith l "--- a/"),
          lines.find? (fun l => strStartsWith l "+++ b/") with
    | some oldPath, some newPath =>
      if strDrop oldPath (strLength "--- a/") ≠ strDrop newPath (strLength "+++ b/")
      then some (strDrop oldPath (strLength "--- a/"))
      else none
    | _, _ => none

/-- The first marker-scanning loop of `detectFileChangeType`. -/
def detectFileChangeTypeScan : List String → Option FileChangeType
  | [] => none
  | l :: rest =>
    if strStartsWith l "new file mode" then some .added
    else if strStartsWith l "deleted file mode" then some .deleted
    else if strStartsWith l "rename from " || strStartsWith l "rename to " then
      some .renamed
    else detectFileChangeTypeScan rest

def detectFileChangeType (lines : List String) : FileChangeType :=
  match detectFileChangeTypeScan lines with
  | some t => t
  | none =>
    if lines.any (fun l => strStartsWith l "--- /dev/null") then .added
    else if lines.any (fun l => strStartsWith l "+++ /dev/null") then .deleted
    else .modified

def parseFileDiff (block : String) : Option ParsedDiffFile :=
  let lines := strSplitNl block
  match extractFilePath lines with
  | none => none
  | some filePath =>
    if !isReviewableFile filePath then none
    else
      let isBinary := lines.any (fun line =>
        strStartsWith line "Binary files" || strContains line "GIT binary patch")
      if isBinary then
        some { filePath,
               previousFilePath := extractPreviousFilePath lines,
               changeType := detectFileChangeType lines,
               language := detectLanguageFromFilePath filePath,
               hunks := [],
               isBinary := true }
      else
        some { filePath,
               previousFilePath := extractPreviousFilePath lines,
               changeType := detectFileChangeType lines,
               language := detectLanguageFromFilePath filePath,
               hunks := parseHunks lines,
               isBinary := false }

/-- The loop realizing `rawDiff.split(/^diff --git /m)`: a part is closed at
every line that starts with the marker; the newline preceding the marker
belongs to the closed part (as in the JS split), and the marker itself is
consumed. -/
def splitDiffGitAux : List String → List String → List String
  | [], cur => [joinNl cur]
  | l :: rest, cur =>
    if strStartsWith l "diff --git " then
      (if cur.isEmpty then "" else ⟨(joinNl cur).data ++ ['\n']⟩)
        :: splitDiffGitAux rest [strDrop l (strLength "diff --git ")]
    else splitDiffGitAux rest (cur ++ [l])

def splitIntoFileBlocks (rawDiff : String) : List String :=
  (splitDiffGitAux (strSplitNl rawDiff) []).filter
    (fun part => strLength (strTrim part) > 0)

def parseUnifiedDiff (rawDiff : String) : Except DiffParseError ParsedDiff :=
  let trimmed := strTrim rawDiff
  if strLength trimmed = 0 then .error .DIFF_EMPTY
  else
    let fileBlocks := splitIntoFileBlocks trimmed
    .ok { files := fileBlocks.filterMap parseFileDiff }

/-! ## Finding / comment data model (`src/types/review.ts`,
`@/generated/prisma/enums`) -/

inductive CommentSeverity
  | CRITICAL
  | WARNING
  | SUGGESTION
  | NITPICK
deriving DecidableEq, Repr

inductive CommentCategory
  | SECURITY
  | BUGS
  | PERFORMANCE
  | STYLE
  | BEST_PRACTICES
deriving DecidableEq, Repr

structure ReviewFinding where
  filePath : String
  lineNumber : Int
  category : CommentCategory
  severity : CommentSeverity
  message : String
  suggestion : String
  confidence : Int
deriving DecidableEq, Repr

inductive Side
  | LEFT
  | RIGHT
deriving DecidableEq, Repr

structure MappedReviewComment where
  finding : ReviewFinding
  path : String
  line : Int
  side : Side
  formattedBody : String
deriving DecidableEq, Repr

structure UnmappedFinding where
  finding : ReviewFinding
  reason : String
deriving DecidableEq, Repr

/-- The union type `MappedReviewComment | UnmappedFinding` returned by
`mapSingleFinding`; `isMappedComment` (the `"path" in result` guard)
corresponds to the constructor. -/
inductive MapFindingResult
  | mapped (c : MappedReviewComment)
  | unmapped (u : UnmappedFinding)
deriving DecidableEq, Repr

structure CommentMappingResult where
  mappedComments : List MappedReviewComment
  unmappedFindings : List UnmappedFinding
deriving DecidableEq, Repr

/-! ## Comment mapper (`src/lib/review/comment-mapper.ts`) -/

/-- Source `SEVERITY_BADGES` lookup; the `?? finding.severity` fallback of the source
is dead for the closed enum and is therefore not represented. -/
def severityBadge : CommentSeverity → String
  | .CRITICAL => "🔴 **Critical**"
  | .WARNING => "🟡 **Warning**"
  | .SUGGESTION => "🔵 **Suggestion**"
  | .NITPICK => "⚪ **Nitpick**"

/-- Source `CATEGORY_LABELS` lookup (fallback dead as above). -/
def categoryLabel : CommentCategory → String
  | .SECURITY => "Security"
  | .BUGS => "Bug Risk"
  | .PERFORMANCE => "Performance"
  | .STYLE => "Style"
  | .BEST_PRACTICES => "Best Practices"

/-- Source `formatCommentBody`; JS truthiness of `finding.suggestion` is
nonemptiness of the string. -/
def formatCommentBody (finding : ReviewFinding) : String :=
  let body := severityBadge finding.severity ++ " | " ++
    categoryLabel finding.category ++ "\n\n" ++ finding.message
  if finding.suggestion ≠ "" then
    body ++ "\n\n**Suggestion:** " ++ finding.suggestion
  else body

def findFileInDiff (parsedDiff : ParsedDiff) (filePath : String) :
    Option ParsedDiffFile :=
  parsedDiff.files.find? (fun file =>
    file.filePath = filePath || file.previousFilePath = some filePath)

/-- The line loop of `findLineInHunk`. -/
def findLineInLines (lineNumber : Int) : List DiffLine → Option (DiffLine × Side)
  | [] => none
  | line :: rest =>
    if line.newLineNumber = some lineNumber then
      some (line, if line.type = .removed then .LEFT else .RIGHT)
    else if line.type = .removed && line.oldLineNumber = some lineNumber then
      some (line, .LEFT)
    else findLineInLines lineNumber rest

def findLineInHunk (hunk : DiffHunk) (lineNumber : Int) :
    Option (DiffLine × Side) :=
  findLineInLines lineNumber hunk.lines

/-- The hunk loop of `findLineInFile`. -/
def findLineInHunks (lineNumber : Int) :
    List DiffHunk → Option (DiffHunk × DiffLine × Side)
  | [] => none
  | hunk :: rest =>
    match findLineInHunk hunk lineNumber with
    | some (line, side) => some (hunk, line, side)
    | none => findLineInHunks lineNumber rest

def findLineInFile (diffFile : ParsedDiffFile) (lineNumber : Int) :
    Option (DiffHunk × DiffLine × Side) :=
  findLineInHunks lineNumber diffFile.hunks

def mapSingleFinding (finding : ReviewFinding) (parsedDiff : ParsedDiff) :
    MapFindingResult :=
  match findFileInDiff parsedDiff finding.filePath with
  | none =>
    .unmapped ⟨finding,
      "File \"" ++ finding.filePath ++ "\" not found in diff"⟩
  | some diffFile =>
    if diffFile.hunks.length = 0 then
      .unmapped ⟨finding,
        "File \"" ++ finding.filePath ++ "\" has no reviewable hunks"⟩
    else
      match findLineInFile diffFile finding.lineNumber with
      | none =>
        .unmapped ⟨finding,
          "Line " ++ toString finding.lineNumber ++ " in \"" ++
            finding.filePath ++ "\" is not within the diff context"⟩
      | some (_, line, side) =>
        let lineNumber :=
          match side with
          | .LEFT => line.oldLineNumber.getD finding.lineNumber
          | .RIGHT => line.newLineNumber.getD finding.lineNumber
        .mapped ⟨finding, diffFile.filePath, lineNumber, side,
          formatCommentBody finding⟩

/-- Source `mapFindingsToGitHubComments`; the two `filter` calls with type guards are
embedded as `filterMap` on the constructor. -/
def mapFindingsToGitHubComments (findings : List ReviewFinding)
    (parsedDiff : ParsedDiff) : CommentMappingResult :=
  if findings.length = 0 then ⟨[], []⟩
  else
    let results := findings.map (fun finding => mapSingleFinding finding parsedDiff)
    { mappedComments := results.filterMap (fun r =>
        match r with | .mapped c => some c | .unmapped _ => none),
      unmappedFindings := results.filterMap (fun r =>
        match r with | .mapped _ => none | .unmapped u => some u) }

/-- Source `buildReviewSummary`. -/
def buildReviewSummary (llmSummary : String) (mappedCount : Nat)
    (unmappedFindings : List UnmappedFinding) : String :=
  let summary :=
    if unmappedFindings.length > 0 then
      unmappedFindings.foldl (fun acc u =>
        acc ++ "\n- " ++ severityBadge u.finding.severity ++ " | " ++
          categoryLabel u.finding.category ++ " — `" ++ u.finding.filePath ++
          ":" ++ toString u.finding.lineNumber ++ "`: " ++ u.finding.message)
        (llmSummary ++ "\n\n---\n\n**Additional findings** (outside diff context):\n")
    else llmSummary
  let totalFindings := mappedCount + unmappedFindings.length
  summary ++ "\n\n---\n*" ++ toString totalFindings ++ " issue" ++
    (if totalFindings = 1 then "" else "s") ++ " found (" ++
    toString mappedCount ++ " inline, " ++
    toString unmappedFindings.length ++ " in summary)*"

/-! ## Context builder data model (`src/types/review.ts`) -/

inductive ScopeType
  | function
  | method
  | «class»
deriving DecidableEq, Repr

/-- The string value of a `ScopeType` (the TS type is a string union; the
token estimator reads `scope.type.length`). -/
def scopeTypeStr : ScopeType → String
  | .function => "function"
  | .method => "method"
  | .«class» => "class"

structure AstScope where
  type : ScopeType
  name : String
  /-- The 1-based start line in the current file version. -/
  startLine : Int
  /-- The 1-based end line in the current file version. -/
  endLine : Int
deriving DecidableEq, Repr

structure AstImport where
  source : String
  specifiers : List String
  isDefault : Bool
deriving DecidableEq, Repr

structure AstFileContext where
  filePath : String
  language : SupportedLanguage
  scopes : List AstScope
  imports : List AstImport
deriving DecidableEq, Repr

structure EnrichedHunk where
  hunk : DiffHunk
  enclosingScopes : List AstScope
deriving DecidableEq, Repr

structure FileReviewContext where
  filePath : String
  language : Option SupportedLanguage
  changeType : FileChangeType
  enrichedHunks : List EnrichedHunk
  imports : List AstImport
  fullFileContent : Option String
deriving DecidableEq, Repr

structure ReviewChunk where
  files : List FileReviewContext
  estimatedTokenCount : Nat
deriving DecidableEq, Repr

inductive ContextBuildError
  | CONTEXT_NO_REVIEWABLE_FILES
deriving DecidableEq, Repr

/-! ## Context builder (`src/lib/review/context-builder.ts`) -/

def DEFAULT_MAX_TOKENS_PER_CHUNK : Nat := 30000

/-- Source `SECURITY_SENSITIVE_PATTERNS`: each case-insensitive regular expression
is a case-insensitive substring test (`/\.env/` is case-sensitive). -/
def strContainsCI (s pat : String) : Bool :=
  containsAux (pat.data.map Char.toLower) (s.data.map Char.toLower)

def isSecuritySensitiveFile (filePath : String) : Bool :=
  strContainsCI filePath "auth" ||
  strContainsCI filePath "login" ||
  strContainsCI filePath "password" ||
  strContainsCI filePath "secret" ||
  strContainsCI filePath "token" ||
  strContainsCI filePath "crypto" ||
  strContainsCI filePath "encrypt" ||
  strContainsCI filePath "decrypt" ||
  strContainsCI filePath "session" ||
  strContainsCI filePath "permission" ||
  strContains filePath ".env" ||
  strContainsCI filePath "credential" ||
  strContainsCI filePath "oauth" ||
  strContainsCI filePath "jwt" ||
  strContainsCI filePath "sanitiz" ||
  strContainsCI filePath "injection"

def filterReviewableFiles (files : List ParsedDiffFile) : List ParsedDiffFile :=
  files.filter (fun file =>
    !file.isBinary && file.changeType ≠ .deleted && file.hunks.length > 0)

def findEnclosingScopesForHunk (hunk : DiffHunk) (scopes : List AstScope) :
    List AstScope :=
  let hunkStartLine := hunk.newStart
  let hunkEndLine := hunk.newStart + hunk.newCount - 1
  scopes.filter (fun scope =>
    scope.startLine ≤ hunkEndLine && scope.endLine ≥ hunkStartLine)

def buildFileReviewContext (file : ParsedDiffFile)
    (astContext : Option AstFileContext) (fileContent : Option String) :
    FileReviewContext :=
  let scopes := (astContext.map AstFileContext.scopes).getD []
  let imports := (astContext.map AstFileContext.imports).getD []
  { filePath := file.filePath,
    language := file.language,
    changeType := file.changeType,
    enrichedHunks := file.hunks.map (fun hunk =>
      ⟨hunk, findEnclosingScopesForHunk hunk scopes⟩),
    imports,
    fullFileContent := fileContent }

def countChangedLines (context : FileReviewContext) : Nat :=
  context.enrichedHunks.foldl (fun count enriched =>
    enriched.hunk.lines.foldl (fun c line =>
      if line.type = .added || line.type = .removed then c + 1 else c) count) 0

/-- The comparator of `prioritizeFiles` (security-sensitive files first, then
descending changed-line count), as the strict "comes before" relation the
source comparator's negative return value denotes. -/
def prioritizeBefore (a b : FileReviewContext) : Bool :=
  let aSecure : Int := if isSecuritySensitiveFile a.filePath then 0 else 1
  let bSecure : Int := if isSecuritySensitiveFile b.filePath then 0 else 1
  if aSecure ≠ bSecure then aSecure < bSecure
  else (countChangedLines b : Int) - (countChangedLines a : Int) < 0

/-- Stable insertion: the new element goes after every already-placed element
that need not come strictly after it. -/
def insertByStable (le : FileReviewContext → FileReviewContext → Bool)
    (x : FileReviewContext) : List FileReviewContext → List FileReviewContext
  | [] => [x]
  | y :: ys => if le y x then y :: insertByStable le x ys else x :: y :: ys

/-- Source `prioritizeFiles`: the stable `Array.prototype.sort` under the source
comparator, embedded as a stable insertion sort (all stable sorts agree on
the comparator's total preorder). -/
def prioritizeFiles (files : List FileReviewContext) : List FileReviewContext :=
  files.foldl (fun sorted f =>
    insertByStable (fun a b => !prioritizeBefore b a) f sorted) []

/-- Source `estimateFileTokenCount` (`Math.ceil(charCount / 4)`). -/
def estimateFileTokenCount (context : FileReviewContext) : Nat :=
  let charCount :=
    strLength context.filePath +
    context.enrichedHunks.foldl (fun acc enriched =>
      enriched.hunk.lines.foldl (fun a line => a + strLength line.content + 10)
        acc +
      enriched.enclosingScopes.foldl (fun a scope =>
        a + strLength scope.name + strLength (scopeTypeStr scope.type) + 20)
        0) 0 +
    context.imports.foldl (fun acc imp => acc + strLength imp.source + 20) 0
  (charCount + 3) / 4

/-- The accumulation loop of `chunkFileContexts` (`currentFiles`,
`currentTokenCount`). -/
def chunkFileContextsAux (maxTokensPerChunk : Nat) :
    List FileReviewContext → List FileReviewContext → Nat → List ReviewChunk
  | [], currentFiles, currentTokenCount =>
    if currentFiles.length > 0 then [⟨currentFiles, currentTokenCount⟩] else []
  | file :: rest, currentFiles, currentTokenCount =>
    let fileTokens := estimateFileTokenCount file
    if currentFiles.length > 0 &&
        currentTokenCount + fileTokens > maxTokensPerChunk then
      ⟨currentFiles, currentTokenCount⟩ ::
        chunkFileContextsAux maxTokensPerChunk rest [file] fileTokens
    else
      chunkFileContextsAux maxTokensPerChunk rest (currentFiles ++ [file])
        (currentTokenCount + fileTokens)

def chunkFileContexts (files : List FileReviewContext)
    (maxTokensPerChunk : Nat) : List ReviewChunk :=
  chunkFileContextsAux maxTokensPerChunk files [] 0

/-- Source `buildReviewContext`; the AST/content maps are embedded as lookup
functions `String → Option _`. -/
def buildReviewContext (parsedDiff : ParsedDiff)
    (astContexts : String → Option AstFileContext)
    (fileContents : String → Option String)
    (maxTokensPerChunk : Nat := DEFAULT_MAX_TOKENS_PER_CHUNK) :
    Except ContextBuildError (List ReviewChunk) :=
  let reviewableFiles := filterReviewableFiles parsedDiff.files
  if reviewableFiles.length = 0 then .error .CONTEXT_NO_REVIEWABLE_FILES
  else
    let fileContexts := reviewableFiles.map (fun file =>
      buildFileReviewContext file (astContexts file.filePath)
        (fileContents file.filePath))
    let prioritized := prioritizeFiles fileContexts
    .ok (chunkFileContexts prioritized maxTokensPerChunk)

/-! ## Persistence layer model (`src/lib/db/queries.ts`)

The Prisma-backed queries are embedded as deterministic operations on an
explicit database state.  Each source query wraps its Prisma call in
`try/catch` and returns a `Result`; the catch arm models environmental
database failure, which a deterministic state model does not exhibit, so
every embedded operation is the success arm. -/

inductive ReviewStatus
  | PENDING
  | PROCESSING
  | COMPLETED
  | FAILED
deriving DecidableEq, Repr

structure ReviewRecord where
  id : Nat
  repositoryId : Nat
  pullRequestNumber : Int
  commitSha : String
  status : ReviewStatus
  summary : Option String
  issuesFound : Option Nat
  processingTimeMs : Option Int
deriving DecidableEq, Repr

structure Repository where
  id : Nat
  fullName : String
  isEnabled : Bool
deriving DecidableEq, Repr

/-- A persisted review comment (`SaveReviewCommentInput`). -/
structure SavedComment where
  reviewId : Nat
  filePath : String
  lineNumber : Int
  category : CommentCategory
  severity : CommentSeverity
  message : String
  suggestion : Option String
  confidence : Int
  githubCommentId : Option String
deriving DecidableEq, Repr

structure DbState where
  repositories : List Repository
  reviews : List ReviewRecord
  comments : List SavedComment
  nextReviewId : Nat
deriving DecidableEq, Repr

/-- Source `findRepositoryByFullName` (`findFirst` on `fullName` and
`isEnabled: true`). -/
def findRepositoryByFullName (st : DbState) (fullName : String) : Option Nat :=
  (st.repositories.find? (fun r => r.fullName = fullName && r.isEnabled)).map
    Repository.id

/-- Source `findExistingReviewByCommitSha` (`findUnique` on the
`(repositoryId, commitSha)` key). -/
def findExistingReviewByCommitSha (st : DbState) (repositoryId : Nat)
    (commitSha : String) : Option Nat :=
  (st.reviews.find? (fun r =>
    r.repositoryId = repositoryId && r.commitSha = commitSha)).map
    ReviewRecord.id

/-- Source `createReviewRecord`: inserts a `PENDING` record, returning its id. -/
def createReviewRecord (st : DbState) (repositoryId : Nat)
    (pullRequestNumber : Int) (commitSha : String) : Nat × DbState :=
  (st.nextReviewId,
   { st with
       reviews := st.reviews ++
         [{ id := st.nextReviewId, repositoryId, pullRequestNumber, commitSha,
            status := .PENDING, summary := none, issuesFound := none,
            processingTimeMs := none }],
       nextReviewId := st.nextReviewId + 1 })

def updateReviewStatus (st : DbState) (reviewId : Nat) (status : ReviewStatus) :
    DbState :=
  { st with
      reviews := st.reviews.map (fun r =>
        if r.id = reviewId then { r with status } else r) }

/-- Source `failReview`: status `FAILED` with a `Review failed: …` summary. -/
def failReview (st : DbState) (reviewId : Nat) (errorMessage : String) :
    DbState :=
  { st with
      reviews := st.reviews.map (fun r =>
        if r.id = reviewId then
          { r with status := .FAILED,
                   summary := some ("Review failed: " ++ errorMessage) }
        else r) }

def completeReview (st : DbState) (reviewId : Nat) (summary : String)
    (issuesFound : Nat) (processingTimeMs : Int) : DbState :=
  { st with
      reviews := st.reviews.map (fun r =>
        if r.id = reviewId then
          { r with status := .COMPLETED, summary := some summary,
                   issuesFound := some issuesFound,
                   processingTimeMs := some processingTimeMs }
        else r) }

def saveReviewComments (st : DbState) (comments : List SavedComment) :
    DbState :=
  { st with comments := st.comments ++ comments }

/-! ## External collaborators (`src/types/github.ts`, `src/types/llm.ts`)

The services are embedded as records of pure oracle functions; a call's
outcome is whatever the oracle returns. -/

/-- Modelled from the spec: the `GitHubError` classification of
`src/types/errors.ts` is not in the source snapshot; §6 lists the error
classes of the source-hosting service (auth, forbidden, not-found,
rate-limited, unknown). -/
inductive GitHubError
  | GITHUB_AUTH_FAILED
  | GITHUB_FORBIDDEN
  | GITHUB_NOT_FOUND
  | GITHUB_RATE_LIMITED
  | GITHUB_UNKNOWN_ERROR
deriving DecidableEq, Repr

inductive LLMError
  | LLM_API_KEY_MISSING
  | LLM_RATE_LIMITED
  | LLM_TIMEOUT
  | LLM_INVALID_RESPONSE
  | LLM_CONTEXT_TOO_LONG
  | LLM_UNKNOWN_ERROR
deriving DecidableEq, Repr

inductive AstParseError
  | AST_INIT_FAILED
  | AST_LANGUAGE_NOT_SUPPORTED
  | AST_PARSE_FAILED
deriving DecidableEq, Repr

inductive ReviewEvent
  | COMMENT
  | REQUEST_CHANGES
deriving DecidableEq, Repr

structure GitHubReviewComment where
  path : String
  line : Int
  side : Side
  body : String
deriving DecidableEq, Repr

structure PullRequestReviewPayload where
  commitSha : String
  body : String
  event : ReviewEvent
  comments : List GitHubReviewComment
deriving DecidableEq, Repr

structure PostedReviewResult where
  githubReviewId : Int
  postedCommentCount : Nat
deriving DecidableEq, Repr

structure GitHubService where
  fetchPullRequestDiff : String → String → Int → Except GitHubError String
  fetchFileContent : String → String → String → String → Except GitHubError String
  postPullRequestReview : String → String → Int → PullRequestReviewPayload →
    Except GitHubError PostedReviewResult

structure TokenUsage where
  inputTokens : Nat
  outputTokens : Nat
deriving DecidableEq, Repr

structure ReviewResult where
  findings : List ReviewFinding
  summary : String
  tokenUsage : TokenUsage
deriving DecidableEq, Repr

structure LLMService where
  analyzeReviewChunk : ReviewChunk → Except LLMError ReviewResult

/-- Modelled from the spec: `src/lib/review/ast-parser.ts` is not in the
source snapshot; §4.2 specifies `initializeAstParser` (idempotent, may fail
with `AST_INIT_FAILED`) and `parseFileAst(sourceText, language, path)`
returning an `AstFileContext` or a classified error.  Embedded as oracles,
matching the engine's use of them as a fallible capability. -/
structure AstService where
  initializeAstParser : Except AstParseError Unit
  parseFileAst : String → SupportedLanguage → String →
    Except AstParseError AstFileContext

/-! ## Review orchestrator (`src/lib/review/engine.ts`) -/

inductive ReviewEngineError
  | REVIEW_DB_ERROR
  | REVIEW_ALREADY_EXISTS
  | REVIEW_DIFF_FETCH_FAILED
  | REVIEW_DIFF_PARSE_FAILED
  | REVIEW_LLM_FAILED
deriving DecidableEq, Repr

structure ReviewRequest where
  repositoryFullName : String
  pullRequestNumber : Int
  commitSha : String
deriving DecidableEq, Repr

structure ReviewEngineResult where
  reviewId : Nat
  issuesFound : Nat
  processingTimeMs : Int
  summary : String
deriving DecidableEq, Repr

/-- Side effects of a review attempt: database writes and outbound
collaborator calls, in execution order (reads are effect-free). -/
inductive EngineEvent
  | dbCreateReview (repositoryId : Nat) (commitSha : String)
  | dbUpdateStatus (reviewId : Nat) (status : ReviewStatus)
  | dbFailReview (reviewId : Nat)
  | dbCompleteReview (reviewId : Nat)
  | dbSaveComments (count : Nat)
  | ghFetchDiff
  | ghFetchFileContent (path : String)
  | ghPostReview
  | llmAnalyzeChunk
deriving DecidableEq, Repr

/-- Source `parseRepositoryFullName`: split on `"/"`, exactly two nonempty parts
(JS falsiness of a string part is emptiness). -/
def parseRepositoryFullName (fullName : String) :
    Except ReviewEngineError (String × String) :=
  match (splitCharAux '/' fullName.data []).map String.mk with
  | [owner, repo] =>
    if owner = "" || repo = "" then .error .REVIEW_DB_ERROR
    else .ok (owner, repo)
  | _ => .error .REVIEW_DB_ERROR

/-- Source `lookupRepositoryAndCheckIdempotency`.  In the deterministic database
model the two query-failure arms (both `REVIEW_DB_ERROR`) collapse into the
repository-absent arm. -/
def lookupRepositoryAndCheckIdempotency (st : DbState)
    (repositoryFullName commitSha : String) :
    Except ReviewEngineError Nat :=
  match findRepositoryByFullName st repositoryFullName with
  | none => .error .REVIEW_DB_ERROR
  | some repositoryId =>
    match findExistingReviewByCommitSha st repositoryId commitSha with
    | some _ => .error .REVIEW_ALREADY_EXISTS
    | none => .ok repositoryId

/-- Source `fetchAndParseDiff`: fetch the PR diff and parse it, marking the review
FAILED on either error. -/
def fetchAndParseDiff (githubService : GitHubService) (owner repo : String)
    (pullNumber : Int) (reviewId : Nat) (st : DbState) :
    Except ReviewEngineError ParsedDiff × DbState × List EngineEvent :=
  match githubService.fetchPullRequestDiff owner repo pullNumber with
  | .error _ =>
    (.error .REVIEW_DIFF_FETCH_FAILED,
     failReview st reviewId "Failed to fetch PR diff",
     [.ghFetchDiff, .dbFailReview reviewId])
  | .ok diffText =>
    match parseUnifiedDiff diffText with
    | .error _ =>
      (.error .REVIEW_DIFF_PARSE_FAILED,
       failReview st reviewId "Failed to parse PR diff",
       [.ghFetchDiff, .dbFailReview reviewId])
    | .ok parsed => (.ok parsed, st, [.ghFetchDiff])

/-- Source `fetchFileContentsForDiff`: fetch every path's content at the commit,
tolerating individual failures (the `Promise.allSettled` batch of pure
oracles, folded in order; a failed fetch leaves the map unchanged). -/
def fetchFileContentsForDiff (githubService : GitHubService)
    (owner repo commitSha : String) (filePaths : List String) :
    (String → Option String) × List EngineEvent :=
  filePaths.foldl (fun (acc : (String → Option String) × List EngineEvent) filePath =>
    match githubService.fetchFileContent owner repo filePath commitSha with
    | .ok content =>
      (fun p => if p = filePath then some content else acc.1 p,
       acc.2 ++ [.ghFetchFileContent filePath])
    | .error _ => (acc.1, acc.2 ++ [.ghFetchFileContent filePath]))
    ((fun _ => none), [])

/-- Source `parseAstContextsForFiles`: best-effort AST enrichment; an init failure
yields the empty map, a per-file parse failure skips the file. -/
def parseAstContextsForFiles (astService : AstService)
    (fileContents : String → Option String)
    (filePaths : List (String × Option SupportedLanguage)) :
    String → Option AstFileContext :=
  match astService.initializeAstParser with
  | .error _ => fun _ => none
  | .ok _ =>
    filePaths.foldl (fun acc pl =>
      match pl.2 with
      | none => acc
      | some language =>
        match fileContents pl.1 with
        | none => acc
        | some content =>
          -- JS falsiness of the content string also skips empty content
          if content = "" then acc
          else
            match astService.parseFileAst content language pl.1 with
            | .ok astContext =>
              fun p => if p = pl.1 then some astContext else acc p
            | .error _ => acc)
      (fun _ => none)

/-- Source `enrichDiffWithContext`: content fetch, AST enrichment, context build.
A context-build error is converted to `ok []`, so the error arm of the
returned `Result` is never produced (mirroring the source). -/
def enrichDiffWithContext (githubService : GitHubService)
    (astService : AstService) (parsedDiff : ParsedDiff)
    (owner repo commitSha : String) :
    Except ReviewEngineError (List ReviewChunk) × List EngineEvent :=
  let reviewableFiles := parsedDiff.files.filter (fun f =>
    !f.isBinary && f.changeType ≠ .deleted)
  let fetched := fetchFileContentsForDiff githubService owner repo commitSha
    (reviewableFiles.map ParsedDiffFile.filePath)
  let fileLanguages := reviewableFiles.map (fun f => (f.filePath, f.language))
  let astContexts := parseAstContextsForFiles astService fetched.1 fileLanguages
  match buildReviewContext parsedDiff astContexts fetched.1 with
  | .error _ => (.ok [], fetched.2)
  | .ok chunks => (.ok chunks, fetched.2)

structure LlmAnalysisResult where
  findings : List ReviewFinding
  summary : String
  totalInputTokens : Nat
  totalOutputTokens : Nat
deriving DecidableEq, Repr

/-- The chunk loop of `analyzeAllChunks`, carrying the accumulated findings,
the nonempty summaries, the token totals and the emitted events; a chunk
failure aborts the remaining chunks. -/
def analyzeChunksLoop (llmService : LLMService) :
    List ReviewChunk → List ReviewFinding → List String → Nat → Nat →
    List EngineEvent →
    Except ReviewEngineError (List ReviewFinding × List String × Nat × Nat) ×
      List EngineEvent
  | [], findings, summaries, inTok, outTok, events =>
    (.ok (findings, summaries, inTok, outTok), events)
  | chunk :: rest, findings, summaries, inTok, outTok, events =>
    match llmService.analyzeReviewChunk chunk with
    | .error _ => (.error .REVIEW_LLM_FAILED, events ++ [.llmAnalyzeChunk])
    | .ok result =>
      analyzeChunksLoop llmService rest (findings ++ result.findings)
        (if result.summary ≠ "" then summaries ++ [result.summary] else summaries)
        (inTok + result.tokenUsage.inputTokens)
        (outTok + result.tokenUsage.outputTokens)
        (events ++ [.llmAnalyzeChunk])

/-- Source `analyzeAllChunks`. -/
def analyzeAllChunks (llmService : LLMService) (chunks : List ReviewChunk) :
    Except ReviewEngineError LlmAnalysisResult × List EngineEvent :=
  match analyzeChunksLoop llmService chunks [] [] 0 0 [] with
  | (.error e, events) => (.error e, events)
  | (.ok (findings, summaries, inTok, outTok), events) =>
    (.ok { findings,
           summary := if summaries.length > 0 then
               String.intercalate "\n\n" summaries
             else "No significant issues found.",
           totalInputTokens := inTok, totalOutputTokens := outTok }, events)

/-- Source `postAndSaveReviewResults`: map the findings, post the review (a
post failure is only logged) and persist the mapped view of the findings.
The source destructures
`mappingResult.success ? mappingResult.data : { mappedComments: [],
unmappedFindings: [] }`; `mapFindingsToGitHubComments` returns the
`CommentMappingResult` record, which carries no `success` field, so the guard
is always falsy at run time and the empty-list arm is taken: the summary is
built over zero mapped comments, the posted review carries no inline
comments, and no findings reach `saveReviewComments`. -/
def postAndSaveReviewResults (githubService : GitHubService)
    (owner repo : String) (request : ReviewRequest) (reviewId : Nat)
    (findings : List ReviewFinding) (parsedDiff : ParsedDiff)
    (llmSummary : String) (st : DbState) : DbState × List EngineEvent :=
  let _mappingResult := mapFindingsToGitHubComments findings parsedDiff
  let mappedComments : List MappedReviewComment := []
  let unmappedFindings : List UnmappedFinding := []
  let reviewSummary := buildReviewSummary llmSummary mappedComments.length
    unmappedFindings
  let reviewEvent := if findings.any (fun f => f.severity = .CRITICAL) then
      ReviewEvent.REQUEST_CHANGES
    else ReviewEvent.COMMENT
  let _postResult := githubService.postPullRequestReview owner repo
    request.pullRequestNumber
    { commitSha := request.commitSha, body := reviewSummary,
      event := reviewEvent,
      comments := mappedComments.map (fun c =>
        { path := c.path, line := c.line, side := c.side,
          body := c.formattedBody }) }
  let allFindingsForDb := mappedComments.map MappedReviewComment.finding ++
    unmappedFindings.map UnmappedFinding.finding
  let dbComments := allFindingsForDb.map (fun finding =>
    { reviewId, filePath := finding.filePath,
      lineNumber := finding.lineNumber, category := finding.category,
      severity := finding.severity, message := finding.message,
      suggestion := some finding.suggestion,
      confidence := finding.confidence,
      githubCommentId := none : SavedComment })
  (saveReviewComments st dbComments,
   [.ghPostReview, .dbSaveComments dbComments.length])

/-- Source `buildEarlyResult` (elapsed time from the two sampled clock instants). -/
def buildEarlyResult (reviewId : Nat) (startTime endTime : Int)
    (summary : String) : ReviewEngineResult :=
  { reviewId, issuesFound := 0, processingTimeMs := endTime - startTime,
    summary }

/-- Source `executeReview`.  `Date.now()` is modelled by two sampled instants:
`startTime` at entry and `endTime` for every later call. -/
def executeReview (request : ReviewRequest) (githubService : GitHubService)
    (llmService : LLMService) (astService : AstService)
    (startTime endTime : Int) (st : DbState) :
    Except ReviewEngineError ReviewEngineResult × DbState × List EngineEvent :=
  match parseRepositoryFullName request.repositoryFullName with
  | .error e => (.error e, st, [])
  | .ok (owner, repo) =>
    match lookupRepositoryAndCheckIdempotency st request.repositoryFullName
      request.commitSha with
    | .error e => (.error e, st, [])
    | .ok repositoryId =>
      let created := createReviewRecord st repositoryId
        request.pullRequestNumber request.commitSha
      let reviewId := created.1
      let st := updateReviewStatus created.2 reviewId .PROCESSING
      let events := [EngineEvent.dbCreateReview repositoryId request.commitSha,
                     EngineEvent.dbUpdateStatus reviewId .PROCESSING]
      match fetchAndParseDiff githubService owner repo
        request.pullRequestNumber reviewId st with
      | (.error e, st, ev) => (.error e, st, events ++ ev)
      | (.ok parsedDiff, st, ev) =>
        let events := events ++ ev
        if parsedDiff.files.length = 0 then
          let summary := "No reviewable files in this PR."
          (.ok (buildEarlyResult reviewId startTime endTime summary),
           completeReview st reviewId summary 0 (endTime - startTime),
           events ++ [.dbCompleteReview reviewId])
        else
          match enrichDiffWithContext githubService astService parsedDiff
            owner repo request.commitSha with
          | (.error _, ev) =>
            (.error .REVIEW_LLM_FAILED,
             failReview st reviewId "Context enrichment failed",
             events ++ ev ++ [.dbFailReview reviewId])
          | (.ok chunks, ev) =>
            let events := events ++ ev
            if chunks.length = 0 then
              let summary := "No reviewable content after filtering."
              (.ok (buildEarlyResult reviewId startTime endTime summary),
               completeReview st reviewId summary 0 (endTime - startTime),
               events ++ [.dbCompleteReview reviewId])
            else
              match analyzeAllChunks llmService chunks with
              | (.error _, ev) =>
                (.error .REVIEW_LLM_FAILED,
                 failReview st reviewId "LLM analysis failed",
                 events ++ ev ++ [.dbFailReview reviewId])
              | (.ok llmResult, ev) =>
                let events := events ++ ev
                let posted := postAndSaveReviewResults githubService owner
                  repo request reviewId llmResult.findings parsedDiff
                  llmResult.summary st
                let processingTimeMs := endTime - startTime
                (.ok { reviewId, issuesFound := llmResult.findings.length,
                       processingTimeMs, summary := llmResult.summary },
                 completeReview posted.1 reviewId llmResult.summary
                   llmResult.findings.length processingTimeMs,
                 events ++ posted.2 ++ [.dbCompleteReview reviewId])

/-! ## Supporting lemmas -/

theorem strLength_eq_zero_iff (s : String) : strLength s = 0 ↔ s = "" := by
  constructor
  · intro h
    have hd : s.data = [] := List.length_eq_zero.mp h
    cases s
    cases hd
    rfl
  · intro h
    subst h
    rfl

/-- Sum of the estimated token counts of a file list. -/
def sumTokens (files : List FileReviewContext) : Nat :=
  (files.map estimateFileTokenCount).sum

theorem sumTokens_append (a b : List FileReviewContext) :
    sumTokens (a ++ b) = sumTokens a + sumTokens b := by
  unfold sumTokens
  simp

/-- Invariant of the chunking loop: the running token count is the sum of the
current chunk's estimates, and a current chunk of more than one file is within
budget; every emitted chunk then satisfies both, and the emitted chunks
concatenate to the pending input behind the current chunk. -/
theorem chunkFileContextsAux_invariant (maxTokensPerChunk : Nat) :
    ∀ (rest cur : List FileReviewContext) (tok : Nat),
      tok = sumTokens cur →
      (1 < cur.length → tok ≤ maxTokensPerChunk) →
      (∀ chunk ∈ chunkFileContextsAux maxTokensPerChunk rest cur tok,
        chunk.estimatedTokenCount = sumTokens chunk.files ∧
        (1 < chunk.files.length →
          chunk.estimatedTokenCount ≤ maxTokensPerChunk)) ∧
      ((chunkFileContextsAux maxTokensPerChunk rest cur tok).map
          ReviewChunk.files).flatten = cur ++ rest := by
  intro rest
  induction rest with
  | nil =>
    intro cur tok hsum hinv
    unfold chunkFileContextsAux
    by_cases hc : cur.length > 0
    · simp only [if_pos hc]
      refine ⟨?_, by simp⟩
      intro chunk hchunk
      simp only [List.mem_singleton] at hchunk
      subst hchunk
      exact ⟨hsum, hinv⟩
    · simp only [if_neg hc]
      have : cur = [] := by
        cases cur with
        | nil => rfl
        | cons a l => simp at hc
      simp [this]
  | cons file rest ih =>
    intro cur tok hsum hinv
    unfold chunkFileContextsAux
    by_cases hcond : cur.length > 0 ∧
        tok + estimateFileTokenCount file > maxTokensPerChunk
    · have hcond' : (decide (cur.length > 0) &&
          decide (tok + estimateFileTokenCount file > maxTokensPerChunk)) = true := by
        simp [hcond.1, hcond.2]
      simp only [hcond', if_true, gt_iff_lt, decide_eq_true_eq]
      have hnext := ih [file] (estimateFileTokenCount file)
        (by simp [sumTokens]) (by intro h; simp at h)
      refine ⟨?_, ?_⟩
      · intro chunk hchunk
        simp only [List.mem_cons] at hchunk
        rcases hchunk with hchunk | hchunk
        · subst hchunk
          exact ⟨hsum, hinv⟩
        · exact hnext.1 chunk hchunk
      · simp only [List.map_cons, List.flatten_cons]
        rw [hnext.2]
        simp
    · have hcond' : (decide (cur.length > 0) &&
          decide (tok + estimateFileTokenCount file > maxTokensPerChunk)) = false := by
        rcases Decidable.not_and_iff_or_not.mp hcond with h | h <;> simp [h]
      simp only [hcond', Bool.false_eq_true, if_false, gt_iff_lt,
        decide_eq_true_eq]
      have hsum' : tok + estimateFileTokenCount file =
          sumTokens (cur ++ [file]) := by
        rw [sumTokens_append, hsum]; simp [sumTokens]
      have hinv' : 1 < (cur ++ [file]).length →
          tok + estimateFileTokenCount file ≤ maxTokensPerChunk := by
        intro hlen
        rcases Decidable.not_and_iff_or_not.mp hcond with h | h
        · exfalso
          apply h
          simp only [List.length_append, List.length_singleton] at hlen
          omega
        · omega
      have hnext := ih (cur ++ [file]) (tok + estimateFileTokenCount file)
        hsum' hinv'
      refine ⟨hnext.1, ?_⟩
      rw [hnext.2]
      simp

/-- C3 – Every chunk produced by `chunkFileContexts` that holds more than one
file is within the token budget, every chunk's `estimatedTokenCount` is the
sum of its files' estimates, the chunks concatenate to exactly the input list
(no file dropped, duplicated, split or reordered), and a file whose own
estimate exceeds the budget sits alone in its chunk. -/
theorem chunkFileContexts_budget_invariant
    (files : List FileReviewContext) (maxTokensPerChunk : Nat)
    (hpos : 0 < maxTokensPerChunk) :
    (∀ chunk ∈ chunkFileContexts files maxTokensPerChunk,
      chunk.estimatedTokenCount = sumTokens chunk.files ∧
      (1 < chunk.files.length →
        chunk.estimatedTokenCount ≤ maxTokensPerChunk)) ∧
    ((chunkFileContexts files maxTokensPerChunk).map ReviewChunk.files).flatten
      = files ∧
    (∀ chunk ∈ chunkFileContexts files maxTokensPerChunk,
      ∀ f ∈ chunk.files,
        maxTokensPerChunk < estimateFileTokenCount f → chunk.files = [f]) := by
  have base := chunkFileContextsAux_invariant maxTokensPerChunk files [] 0
    (by simp [sumTokens]) (by intro h; simp at h)
  unfold chunkFileContexts
  refine ⟨base.1, by simpa using base.2, ?_⟩
  intro chunk hchunk f hf hover
  have hinv := base.1 chunk hchunk
  have hle : estimateFileTokenCount f ≤ sumTokens chunk.files := by
    unfold sumTokens
    exact List.single_le_sum (by simp) _ (List.mem_map_of_mem _ hf)
  cases hlen : chunk.files with
  | nil => exact absurd (hlen ▸ hf) (List.not_mem_nil f)
  | cons a l =>
    cases l with
    | nil =>
      have hfa : f = a := by
        have := hlen ▸ hf
        simpa using this
      simp [hfa]
    | cons b l2 =>
      exfalso
      have hlong : 1 < chunk.files.length := by rw [hlen]; simp
      have := hinv.2 hlong
      rw [hinv.1] at this
      omega

/-- C4 – A scope is in a hunk's enclosing-scope set exactly when its line
range overlaps the hunk's new-file range `[newStart, newStart+newCount-1]`. -/
theorem findEnclosingScopesForHunk_mem_iff (h : DiffHunk)
    (scopes : List AstScope) (s : AstScope) (hs : s ∈ scopes) :
    s ∈ findEnclosingScopesForHunk h scopes ↔
      s.startLine ≤ h.newStart + h.newCount - 1 ∧ s.endLine ≥ h.newStart := by
  unfold findEnclosingScopesForHunk
  simp only [List.mem_filter, Bool.and_eq_true, decide_eq_true_eq]
  constructor
  · intro hmem
    exact hmem.2
  · intro hcond
    exact ⟨hs, hcond⟩

/-- C5 – The parser fails exactly on whitespace-only input, and then with
`DIFF_EMPTY`; every other input parses successfully. -/
theorem parseUnifiedDiff_error_iff_empty (rawDiff : String) :
    (parseUnifiedDiff rawDiff = .error .DIFF_EMPTY ↔ strTrim rawDiff = "") ∧
    (strTrim rawDiff ≠ "" → ∃ d, parseUnifiedDiff rawDiff = .ok d) := by
  by_cases h : strLength (strTrim rawDiff) = 0
  · have he := (strLength_eq_zero_iff _).mp h
    have herr : parseUnifiedDiff rawDiff = .error .DIFF_EMPTY := by
      unfold parseUnifiedDiff
      rw [if_pos h]
    exact ⟨by simp [herr, he], fun hne => absurd he hne⟩
  · have hne : strTrim rawDiff ≠ "" := fun he =>
      h ((strLength_eq_zero_iff _).mpr he)
    have hok : parseUnifiedDiff rawDiff =
        .ok { files := (splitIntoFileBlocks (strTrim rawDiff)).filterMap
                parseFileDiff } := by
      unfold parseUnifiedDiff
      rw [if_neg h]
    refine ⟨⟨fun hcontra => ?_, fun he => absurd he hne⟩, fun _ => ⟨_, hok⟩⟩
    rw [hok] at hcontra
    cases hcontra

/-- The finding carried by either bucket of a `mapSingleFinding` result. -/
def mapResultFinding : MapFindingResult → ReviewFinding
  | .mapped c => c.finding
  | .unmapped u => u.finding

theorem mapSingleFinding_finding (finding : ReviewFinding)
    (parsedDiff : ParsedDiff) :
    mapResultFinding (mapSingleFinding finding parsedDiff) = finding := by
  unfold mapSingleFinding
  cases findFileInDiff parsedDiff finding.filePath with
  | none => rfl
  | some diffFile =>
    simp only
    by_cases hh : diffFile.hunks.length = 0
    · rw [if_pos hh]
      rfl
    · rw [if_neg hh]
      cases findLineInFile diffFile finding.lineNumber with
      | none => rfl
      | some m => rfl

theorem mapResults_partition (rs : List MapFindingResult) :
    ((rs.filterMap (fun r =>
        match r with | .mapped c => some c | .unmapped _ => none)).map
          MappedReviewComment.finding ++
     (rs.filterMap (fun r =>
        match r with | .mapped _ => none | .unmapped u => some u)).map
          UnmappedFinding.finding).Perm (rs.map mapResultFinding) := by
  induction rs with
  | nil => simp
  | cons r rest ih =>
    cases r with
    | mapped c =>
      simpa [mapResultFinding] using ih.cons c.finding
    | unmapped u =>
      simp only [List.filterMap_cons, List.map_cons, mapResultFinding]
      exact List.perm_middle.trans (ih.cons u.finding)

/-- C2 – The finding→comment mapper is total and partitions its input: the
two buckets' lengths sum to the number of findings, and the findings carried
by the buckets are exactly (a permutation of) the input findings, so each
finding lands in exactly one bucket. -/
theorem mapFindingsToGitHubComments_partition (findings : List ReviewFinding)
    (parsedDiff : ParsedDiff) :
    (mapFindingsToGitHubComments findings parsedDiff).mappedComments.length +
      (mapFindingsToGitHubComments findings parsedDiff).unmappedFindings.length
      = findings.length ∧
    (((mapFindingsToGitHubComments findings parsedDiff).mappedComments.map
        MappedReviewComment.finding) ++
     ((mapFindingsToGitHubComments findings parsedDiff).unmappedFindings.map
        UnmappedFinding.finding)).Perm findings := by
  unfold mapFindingsToGitHubComments
  by_cases hlen : findings.length = 0
  · have : findings = [] := List.length_eq_zero.mp hlen
    subst this
    simp
  · rw [if_neg hlen]
    simp only
    have hmap : (findings.map
        (fun finding => mapSingleFinding finding parsedDiff)).map
          mapResultFinding = findings := by
      rw [List.map_map]
      have : mapResultFinding ∘
          (fun finding => mapSingleFinding finding parsedDiff) = id := by
        funext finding
        exact mapSingleFinding_finding finding parsedDiff
      rw [this, List.map_id]
    have hperm := mapResults_partition
      (findings.map (fun finding => mapSingleFinding finding parsedDiff))
    rw [hmap] at hperm
    refine ⟨?_, hperm⟩
    have := hperm.length_eq
    simpa using this

/-! ## C1 – hunk counter replay -/

/-- Raw hunk-body lines that occupy a line of the old file: removals and
context (a valid unified diff declares their number as the header's
`oldCount`). -/
def isOldRaw (r : String) : Bool :=
  strStartsWith r "-" || strStartsWith r " "

/-- Raw hunk-body lines that occupy a line of the new file: additions and
context (declared as the header's `newCount`). -/
def isNewRaw (r : String) : Bool :=
  strStartsWith r "+" || strStartsWith r " "

/-- The replay of the claim: walk a hunk's lines from the two start counters,
incrementing the old counter on removed/context lines and the new counter on
added/context lines. -/
def replayHunkCounters : List DiffLine → Int × Int → Int × Int
  | [], counters => counters
  | l :: rest, (o, n) =>
    replayHunkCounters rest
      (match l.type with
       | .removed => (o + 1, n)
       | .added => (o, n + 1)
       | .context => (o + 1, n + 1))

theorem strStartsWith_char_iff (r : String) (c : Char) (s : String)
    (hs : s.data = [c]) :
    strStartsWith r s = true ↔ ∃ t, r.data = c :: t := by
  unfold strStartsWith
  rw [hs]
  cases hr : r.data with
  | nil => simp [List.isPrefixOf]
  | cons c' t =>
    simp only [List.isPrefixOf, List.isPrefixOf_nil_left, Bool.and_true,
      beq_iff_eq]
    constructor
    · intro h
      exact ⟨t, by rw [h]⟩
    · rintro ⟨t', ht'⟩
      injection ht' with h1 h2
      exact h1.symm

theorem strStartsWith_plus_iff (r : String) :
    strStartsWith r "+" = true ↔ ∃ t, r.data = '+' :: t :=
  strStartsWith_char_iff r '+' "+" rfl

theorem strStartsWith_minus_iff (r : String) :
    strStartsWith r "-" = true ↔ ∃ t, r.data = '-' :: t :=
  strStartsWith_char_iff r '-' "-" rfl

theorem strStartsWith_space_iff (r : String) :
    strStartsWith r " " = true ↔ ∃ t, r.data = ' ' :: t :=
  strStartsWith_char_iff r ' ' " " rfl

/-- The four defining equations of `buildDiffHunkLines` on a cons cell. -/
theorem buildDiffHunkLines_cons_plus (raw : String) (rest : List String)
    (o n : Int) (h1 : strStartsWith raw "+" = true) :
    buildDiffHunkLines (raw :: rest) o n =
      { type := .added, content := strDrop raw 1,
        newLineNumber := some n, oldLineNumber := none }
        :: buildDiffHunkLines rest o (n + 1) := by
  simp only [buildDiffHunkLines, h1, if_true]

theorem buildDiffHunkLines_cons_minus (raw : String) (rest : List String)
    (o n : Int) (h1 : strStartsWith raw "+" = false)
    (h2 : strStartsWith raw "-" = true) :
    buildDiffHunkLines (raw :: rest) o n =
      { type := .removed, content := strDrop raw 1,
        newLineNumber := none, oldLineNumber := some o }
        :: buildDiffHunkLines rest (o + 1) n := by
  simp only [buildDiffHunkLines, h1, h2, if_true, Bool.false_eq_true, if_false]

theorem buildDiffHunkLines_cons_space (raw : String) (rest : List String)
    (o n : Int) (h1 : strStartsWith raw "+" = false)
    (h2 : strStartsWith raw "-" = false)
    (h3 : strStartsWith raw " " = true) :
    buildDiffHunkLines (raw :: rest) o n =
      { type := .context, content := strDrop raw 1,
        newLineNumber := some n, oldLineNumber := some o }
        :: buildDiffHunkLines rest (o + 1) (n + 1) := by
  simp only [buildDiffHunkLines, h1, h2, h3, if_true, Bool.false_eq_true,
    if_false]

theorem buildDiffHunkLines_cons_skip (raw : String) (rest : List String)
    (o n : Int) (h1 : strStartsWith raw "+" = false)
    (h2 : strStartsWith raw "-" = false)
    (h3 : strStartsWith raw " " = false) :
    buildDiffHunkLines (raw :: rest) o n = buildDiffHunkLines rest o n := by
  simp only [buildDiffHunkLines, h1, h2, h3, Bool.false_eq_true, if_false]

theorem buildDiffHunkLines_replay (raws : List String) : ∀ (o n : Int),
    replayHunkCounters (buildDiffHunkLines raws o n) (o, n)
      = (o + raws.countP isOldRaw, n + raws.countP isNewRaw) := by
  induction raws with
  | nil => intro o n; simp [buildDiffHunkLines, replayHunkCounters]
  | cons raw rest ih =>
    intro o n
    by_cases h1 : strStartsWith raw "+" = true
    · obtain ⟨t, ht⟩ := (strStartsWith_plus_iff raw).mp h1
      have hm : strStartsWith raw "-" = false := by
        rw [Bool.eq_false_iff]
        intro hc
        obtain ⟨t', ht'⟩ := (strStartsWith_minus_iff raw).mp hc
        rw [ht] at ht'
        cases ht'
      have hsp : strStartsWith raw " " = false := by
        rw [Bool.eq_false_iff]
        intro hc
        obtain ⟨t', ht'⟩ := (strStartsWith_space_iff raw).mp hc
        rw [ht] at ht'
        cases ht'
      rw [buildDiffHunkLines_cons_plus raw rest o n h1]
      rw [show replayHunkCounters
        ({ type := DiffLineType.added, content := strDrop raw 1,
           newLineNumber := some n, oldLineNumber := none }
          :: buildDiffHunkLines rest o (n + 1)) (o, n)
        = replayHunkCounters (buildDiffHunkLines rest o (n + 1)) (o, n + 1)
        from rfl]
      rw [ih o (n + 1)]
      rw [List.countP_cons_of_neg isOldRaw _ (by simp [isOldRaw, hm, hsp]),
        List.countP_cons_of_pos isNewRaw _ (by simp [isNewRaw, h1])]
      simp only [Prod.mk.injEq]
      constructor <;> push_cast <;> ring
    · have h1f : strStartsWith raw "+" = false := Bool.eq_false_iff.mpr h1
      by_cases h2 : strStartsWith raw "-" = true
      · obtain ⟨t, ht⟩ := (strStartsWith_minus_iff raw).mp h2
        have hsp : strStartsWith raw " " = false := by
          rw [Bool.eq_false_iff]
          intro hc
          obtain ⟨t', ht'⟩ := (strStartsWith_space_iff raw).mp hc
          rw [ht] at ht'
          cases ht'
        rw [buildDiffHunkLines_cons_minus raw rest o n h1f h2]
        rw [show replayHunkCounters
          ({ type := DiffLineType.removed, content := strDrop raw 1,
             newLineNumber := none, oldLineNumber := some o }
            :: buildDiffHunkLines rest (o + 1) n) (o, n)
          = replayHunkCounters (buildDiffHunkLines rest (o + 1) n) (o + 1, n)
          from rfl]
        rw [ih (o + 1) n]
        rw [List.countP_cons_of_pos isOldRaw _ (by simp [isOldRaw, h2]),
          List.countP_cons_of_neg isNewRaw _ (by simp [isNewRaw, h1f, hsp])]
        simp only [Prod.mk.injEq]
        constructor <;> push_cast <;> ring
      · have h2f : strStartsWith raw "-" = false := Bool.eq_false_iff.mpr h2
        by_cases h3 : strStartsWith raw " " = true
        · rw [buildDiffHunkLines_cons_space raw rest o n h1f h2f h3]
          rw [show replayHunkCounters
            ({ type := DiffLineType.context, content := strDrop raw 1,
               newLineNumber := some n, oldLineNumber := some o }
              :: buildDiffHunkLines rest (o + 1) (n + 1)) (o, n)
            = replayHunkCounters (buildDiffHunkLines rest (o + 1) (n + 1))
                (o + 1, n + 1) from rfl]
          rw [ih (o + 1) (n + 1)]
          rw [List.countP_cons_of_pos isOldRaw _ (by simp [isOldRaw, h3]),
            List.countP_cons_of_pos isNewRaw _ (by simp [isNewRaw, h3])]
          simp only [Prod.mk.injEq]
          constructor <;> push_cast <;> ring
        · have h3f : strStartsWith raw " " = false := Bool.eq_false_iff.mpr h3
          rw [buildDiffHunkLines_cons_skip raw rest o n h1f h2f h3f]
          rw [ih o n]
          rw [List.countP_cons_of_neg isOldRaw _ (by simp [isOldRaw, h2f, h3f]),
            List.countP_cons_of_neg isNewRaw _ (by simp [isNewRaw, h1f, h3f])]

/-- C1 – For a hunk built from a valid raw block (one whose header-declared
counts equal the number of old-file-occupying resp. new-file-occupying raw
lines, which is what the unified-diff format guarantees), replaying the
parsed lines from `oldStart`/`newStart` with per-kind counter increments
reproduces exactly `oldStart + oldCount` and `newStart + newCount`. -/
theorem buildDiffHunk_replay_counts (header : String) (m : HunkHeaderMatch)
    (rawLines : List String)
    (hOld : (buildDiffHunk header m rawLines).oldCount
      = (rawLines.countP isOldRaw : Int))
    (hNew : (buildDiffHunk header m rawLines).newCount
      = (rawLines.countP isNewRaw : Int)) :
    replayHunkCounters (buildDiffHunk header m rawLines).lines
        ((buildDiffHunk header m rawLines).oldStart,
         (buildDiffHunk header m rawLines).newStart)
      = ((buildDiffHunk header m rawLines).oldStart +
           (buildDiffHunk header m rawLines).oldCount,
         (buildDiffHunk header m rawLines).newStart +
           (buildDiffHunk header m rawLines).newCount) := by
  rw [hOld, hNew]
  exact buildDiffHunkLines_replay rawLines
    (buildDiffHunk header m rawLines).oldStart
    (buildDiffHunk header m rawLines).newStart

/-! ## C7 / C10 – line-number invariants of parser output -/

/-- The per-kind nullability contract of a `DiffLine`: `added` lines carry
only a new-file number, `removed` lines only an old-file number, `context`
lines both. -/
def diffLineNumbersInvariant (l : DiffLine) : Prop :=
  (l.type = .added → l.oldLineNumber = none ∧ l.newLineNumber ≠ none) ∧
  (l.type = .removed → l.newLineNumber = none ∧ l.oldLineNumber ≠ none) ∧
  (l.type = .context → l.oldLineNumber ≠ none ∧ l.newLineNumber ≠ none)

theorem buildDiffHunkLines_invariant (raws : List String) : ∀ (o n : Int),
    ∀ l ∈ buildDiffHunkLines raws o n, diffLineNumbersInvariant l := by
  induction raws with
  | nil =>
    intro o n l hl
    simp [buildDiffHunkLines] at hl
  | cons raw rest ih =>
    intro o n l hl
    by_cases h1 : strStartsWith raw "+" = true
    · rw [buildDiffHunkLines_cons_plus raw rest o n h1] at hl
      rcases List.mem_cons.mp hl with hl | hl
      · subst hl
        refine ⟨fun _ => ⟨rfl, by simp⟩, fun hc => ?_, fun hc => ?_⟩ <;>
          cases hc
      · exact ih o (n + 1) l hl
    · have h1f : strStartsWith raw "+" = false := Bool.eq_false_iff.mpr h1
      by_cases h2 : strStartsWith raw "-" = true
      · rw [buildDiffHunkLines_cons_minus raw rest o n h1f h2] at hl
        rcases List.mem_cons.mp hl with hl | hl
        · subst hl
          refine ⟨fun hc => ?_, fun _ => ⟨rfl, by simp⟩, fun hc => ?_⟩ <;>
            cases hc
        · exact ih (o + 1) n l hl
      · have h2f : strStartsWith raw "-" = false := Bool.eq_false_iff.mpr h2
        by_cases h3 : strStartsWith raw " " = true
        · rw [buildDiffHunkLines_cons_space raw rest o n h1f h2f h3] at hl
          rcases List.mem_cons.mp hl with hl | hl
          · subst hl
            refine ⟨fun hc => ?_, fun hc => ?_, fun _ => ⟨by simp, by simp⟩⟩ <;>
              cases hc
          · exact ih (o + 1) (n + 1) l hl
        · have h3f : strStartsWith raw " " = false := Bool.eq_false_iff.mpr h3
          rw [buildDiffHunkLines_cons_skip raw rest o n h1f h2f h3f] at hl
          exact ih o n l hl

/-- Every line of every hunk `buildDiffHunk` produces comes from
`buildDiffHunkLines`, so it satisfies the nullability contract. -/
theorem buildDiffHunk_lines_invariant (header : String) (m : HunkHeaderMatch)
    (raws : List String) :
    ∀ l ∈ (buildDiffHunk header m raws).lines, diffLineNumbersInvariant l := by
  intro l hl
  exact buildDiffHunkLines_invariant raws _ _ l hl

/-- Defining equation of `parseHunksAux` on a cons cell. -/
theorem parseHunksAux_cons (line : String) (rest : List String)
    (st : Option (String × HunkHeaderMatch × List String)) :
    parseHunksAux (line :: rest) st =
      match hunkHeaderMatch line with
      | some m =>
        match st with
        | none => parseHunksAux rest (some (line, m, []))
        | some (h, pm, cur) =>
          buildDiffHunk h pm cur :: parseHunksAux rest (some (line, m, []))
      | none =>
        match st with
        | none => parseHunksAux rest none
        | some (h, m, cur) => parseHunksAux rest (some (h, m, cur ++ [line])) :=
  rfl

theorem parseHunksAux_invariant (lines : List String) :
    ∀ (st : Option (String × HunkHeaderMatch × List String)),
      ∀ h ∈ parseHunksAux lines st, ∀ l ∈ h.lines,
        diffLineNumbersInvariant l := by
  induction lines with
  | nil =>
    intro st h hh
    cases st with
    | none => simp [parseHunksAux] at hh
    | some cur =>
      obtain ⟨hd, m, raws⟩ := cur
      simp only [parseHunksAux, List.mem_singleton] at hh
      subst hh
      exact buildDiffHunk_lines_invariant hd m raws
  | cons line rest ih =>
    intro st h hh
    rw [parseHunksAux_cons] at hh
    cases hm : hunkHeaderMatch line with
    | some m =>
      rw [hm] at hh
      cases st with
      | none => exact ih _ h hh
      | some cur =>
        obtain ⟨hd, pm, raws⟩ := cur
        simp only [List.mem_cons] at hh
        rcases hh with hh | hh
        · subst hh
          exact buildDiffHunk_lines_invariant hd pm raws
        · exact ih _ h hh
    | none =>
      rw [hm] at hh
      cases st with
      | none => exact ih _ h hh
      | some cur =>
        obtain ⟨hd, pm, raws⟩ := cur
        exact ih _ h hh

/-- The hunks of any file produced by `parseFileDiff` are empty (binary
files) or come from `parseHunks`. -/
theorem parseFileDiff_hunks (block : String) (f : ParsedDiffFile)
    (hf : parseFileDiff block = some f) :
    f.hunks = [] ∨ f.hunks = parseHunks (strSplitNl block) := by
  simp only [parseFileDiff] at hf
  cases hpath : extractFilePath (strSplitNl block) with
  | none => rw [hpath] at hf; cases hf
  | some filePath =>
    rw [hpath] at hf
    simp only at hf
    by_cases hrev : isReviewableFile filePath
    · rw [if_neg (by simp [hrev])] at hf
      by_cases hbin : (strSplitNl block).any (fun line =>
          strStartsWith line "Binary files" || strContains line "GIT binary patch")
      · rw [if_pos hbin] at hf
        injection hf with hf
        subst hf
        left
        rfl
      · rw [if_neg hbin] at hf
        injection hf with hf
        subst hf
        right
        rfl
    · rw [if_pos (by simp [hrev])] at hf
      cases hf

/-- Shared core of C7 and C10: every line of every hunk of every file of a
successfully parsed diff satisfies the nullability contract. -/
theorem parseUnifiedDiff_invariant_core (rawDiff : String) (d : ParsedDiff)
    (hparse : parseUnifiedDiff rawDiff = .ok d) :
    ∀ f ∈ d.files, ∀ h ∈ f.hunks, ∀ l ∈ h.lines,
      diffLineNumbersInvariant l := by
  intro f hf h hh l hl
  unfold parseUnifiedDiff at hparse
  by_cases hempty : strLength (strTrim rawDiff) = 0
  · rw [if_pos hempty] at hparse; cases hparse
  · rw [if_neg hempty] at hparse
    injection hparse with hparse
    subst hparse
    simp only at hf
    obtain ⟨block, _, hblock⟩ := List.mem_filterMap.mp hf
    rcases parseFileDiff_hunks block f hblock with hnil | hhunks
    · rw [hnil] at hh
      cases hh
    · rw [hhunks] at hh
      exact parseHunksAux_invariant (strSplitNl block) none h hh l hl

/-- C7 – Every `DiffLine` produced by the diff parser has `oldLineNumber`
null and `newLineNumber` set when `added`, `newLineNumber` null and
`oldLineNumber` set when `removed`, and both set when `context`. -/
theorem parseUnifiedDiff_lineNumbers (rawDiff : String) (d : ParsedDiff)
    (hparse : parseUnifiedDiff rawDiff = .ok d) :
    ∀ f ∈ d.files, ∀ h ∈ f.hunks, ∀ l ∈ h.lines,
      diffLineNumbersInvariant l :=
  parseUnifiedDiff_invariant_core rawDiff d hparse

theorem findLineInLines_mem (n : Int) (lines : List DiffLine) (l : DiffLine)
    (side : Side) (h : findLineInLines n lines = some (l, side)) :
    l ∈ lines := by
  induction lines with
  | nil => cases h
  | cons x rest ih =>
    unfold findLineInLines at h
    by_cases h1 : x.newLineNumber = some n
    · rw [if_pos h1] at h
      injection h with h
      obtain ⟨hxl, hs⟩ := Prod.mk.inj h
      rw [← hxl]
      exact List.mem_cons_self x rest
    · rw [if_neg h1] at h
      by_cases h2 : (x.type = DiffLineType.removed && x.oldLineNumber = some n) = true
      · rw [if_pos h2] at h
        injection h with h
        obtain ⟨hxl, hs⟩ := Prod.mk.inj h
        rw [← hxl]
        exact List.mem_cons_self x rest
      · rw [if_neg h2] at h
        exact List.mem_cons_of_mem x (ih h)

/-- On lines satisfying the nullability contract, a `LEFT`-side match is
always a removed line matched through its `oldLineNumber`; the removed line's
`newLineNumber` is null. -/
theorem findLineInLines_left (n : Int) (lines : List DiffLine)
    (hinv : ∀ l ∈ lines, diffLineNumbersInvariant l) (l : DiffLine)
    (h : findLineInLines n lines = some (l, .LEFT)) :
    l.type = .removed ∧ l.oldLineNumber = some n ∧ l.newLineNumber = none := by
  induction lines with
  | nil => cases h
  | cons x rest ih =>
    unfold findLineInLines at h
    by_cases h1 : x.newLineNumber = some n
    · rw [if_pos h1] at h
      by_cases hr : x.type = DiffLineType.removed
      · exfalso
        have := ((hinv x (List.mem_cons_self x rest)).2.1 hr).1
        rw [this] at h1
        cases h1
      · rw [if_neg hr] at h
        injection h with h
        obtain ⟨hxl, hs⟩ := Prod.mk.inj h
        cases hs
    · rw [if_neg h1] at h
      by_cases h2 : (x.type = DiffLineType.removed && x.oldLineNumber = some n) = true
      · rw [if_pos h2] at h
        injection h with h
        obtain ⟨hxl, hs⟩ := Prod.mk.inj h
        simp only [Bool.and_eq_true, decide_eq_true_eq] at h2
        rw [← hxl]
        exact ⟨h2.1, h2.2,
          ((hinv x (List.mem_cons_self x rest)).2.1 h2.1).1⟩
      · rw [if_neg h2] at h
        exact ih (fun y hy => hinv y (List.mem_cons_of_mem x hy)) h

theorem findLineInHunks_spec (n : Int) (hunks : List DiffHunk)
    (hk : DiffHunk) (l : DiffLine) (side : Side)
    (h : findLineInHunks n hunks = some (hk, l, side)) :
    hk ∈ hunks ∧ findLineInLines n hk.lines = some (l, side) := by
  induction hunks with
  | nil => cases h
  | cons x rest ih =>
    unfold findLineInHunks at h
    cases hx : findLineInHunk x n with
    | some m =>
      rw [hx] at h
      obtain ⟨ml, ms⟩ := m
      injection h with h
      obtain ⟨he1, h23⟩ := Prod.mk.inj h
      obtain ⟨he2, he3⟩ := Prod.mk.inj h23
      subst he1; subst he2; subst he3
      exact ⟨List.mem_cons_self x rest, hx⟩
    | none =>
      rw [hx] at h
      obtain ⟨hmem, hrest⟩ := ih h
      exact ⟨List.mem_cons_of_mem x hmem, hrest⟩

/-- C10 – On a parser-produced diff, a finding mapped to a `LEFT`-side
comment was matched on a removed line through that line's `oldLineNumber`,
and the comment's line is that `oldLineNumber` (the finding's line number);
moreover no removed line of a parser-produced diff can ever satisfy the
mapper's `newLineNumber` equality, so the branch that assigns `LEFT` to a
removed line matched by `newLineNumber` is unreachable. -/
theorem mapSingleFinding_left_of_parsed (rawDiff : String) (d : ParsedDiff)
    (hparse : parseUnifiedDiff rawDiff = .ok d) (finding : ReviewFinding)
    (c : MappedReviewComment) (hmap : mapSingleFinding finding d = .mapped c)
    (hside : c.side = .LEFT) :
    (∃ f ∈ d.files, ∃ hk ∈ f.hunks, ∃ l ∈ hk.lines,
      l.type = .removed ∧ l.oldLineNumber = some finding.lineNumber ∧
      l.newLineNumber = none ∧ c.line = finding.lineNumber) ∧
    (∀ f ∈ d.files, ∀ hk ∈ f.hunks, ∀ l ∈ hk.lines,
      l.type = .removed → l.newLineNumber ≠ some finding.lineNumber) := by
  have hcore := parseUnifiedDiff_invariant_core rawDiff d hparse
  constructor
  · unfold mapSingleFinding at hmap
    cases hfile : findFileInDiff d finding.filePath with
    | none => rw [hfile] at hmap; cases hmap
    | some diffFile =>
      rw [hfile] at hmap
      simp only at hmap
      by_cases hh : diffFile.hunks.length = 0
      · rw [if_pos hh] at hmap; cases hmap
      · rw [if_neg hh] at hmap
        cases hline : findLineInFile diffFile finding.lineNumber with
        | none => rw [hline] at hmap; cases hmap
        | some m =>
          rw [hline] at hmap
          obtain ⟨hk0, l0, side0⟩ := m
          simp only at hmap
          injection hmap with hmap
          have hmem : diffFile ∈ d.files :=
            List.mem_of_find?_eq_some hfile
          obtain ⟨hkmem, hfound⟩ :=
            findLineInHunks_spec finding.lineNumber diffFile.hunks hk0 l0
              side0 hline
          have hsid : side0 = Side.LEFT := by
            rw [← hmap] at hside
            exact hside
          subst hsid
          have hinvL := hcore diffFile hmem hk0 hkmem
          obtain ⟨hrem, hold, hnew⟩ :=
            findLineInLines_left finding.lineNumber hk0.lines hinvL l0 hfound
          refine ⟨diffFile, hmem, hk0, hkmem, l0,
            findLineInLines_mem _ _ _ _ hfound, hrem, hold, hnew, ?_⟩
          rw [← hmap]
          show l0.oldLineNumber.getD finding.lineNumber = finding.lineNumber
          rw [hold]
          rfl
  · intro f hf hk hhk l hl hrem
    rw [((hcore f hf hk hhk l hl).2.1 hrem).1]
    intro hc
    cases hc

/-! ## C8 – `previousFilePath` -/

/-- A deleted-file diff: `deleted file mode` marker, old-path header, and a
`+++ /dev/null` new-path header. -/
def deletedFileDiff : String :=
  "diff --git a/old.ts b/old.ts\ndeleted file mode 100644\nindex 1234567..0000000\n--- a/old.ts\n+++ /dev/null\n@@ -1 +0,0 @@\n-gone"

/-- C8 counterexample – the parser's file entry for a deleted file has change
kind `deleted` but a null `previousFilePath` (the old path is carried in
`filePath` instead), refuting "previousFilePath is non-null exactly when the
change kind is `renamed` or `deleted`". -/
theorem parseFileDiff_deleted_previousFilePath_none :
    parseUnifiedDiff deletedFileDiff =
      .ok { files := [{ filePath := "old.ts",
                        previousFilePath := none,
                        changeType := .deleted,
                        language := some .typescript,
                        hunks := [{ oldStart := 1, oldCount := 1,
                                    newStart := 0, newCount := 0,
                                    header := "@@ -1 +0,0 @@",
                                    lines := [{ type := .removed,
                                                content := "gone",
                                                newLineNumber := none,
                                                oldLineNumber := some 1 }] }],
                        isBinary := false }] } :=
  rfl

/-- The header-path condition of `extractPreviousFilePath`: the first
`--- a/` and `+++ b/` header lines are both present and carry different
paths. -/
def headerPathsDiffer (lines : List String) : Prop :=
  match lines.find? (fun l => strStartsWith l "--- a/"),
        lines.find? (fun l => strStartsWith l "+++ b/") with
  | some oldPath, some newPath =>
    strDrop oldPath (strLength "--- a/") ≠ strDrop newPath (strLength "+++ b/")
  | _, _ => False

theorem extractPreviousFilePath_ne_none_iff (lines : List String) :
    extractPreviousFilePath lines ≠ none ↔
      ((lines.any (fun l => strStartsWith l "rename from ")) = true ∨
        headerPathsDiffer lines) := by
  unfold extractPreviousFilePath
  cases hr : lines.find? (fun l => strStartsWith l "rename from ") with
  | some l =>
    have hmem := List.mem_of_find?_eq_some hr
    have hp : strStartsWith l "rename from " = true := by
      have := List.find?_some hr
      simpa using this
    simp only [ne_eq, reduceCtorEq, not_false_eq_true, true_iff]
    left
    rw [List.any_eq_true]
    exact ⟨l, hmem, by simpa using hp⟩
  | none =>
    have hany : lines.any (fun l => strStartsWith l "rename from ") = false := by
      rw [Bool.eq_false_iff, ne_eq, List.any_eq_true]
      rintro ⟨x, hx, hpx⟩
      exact absurd hpx (by simpa using List.find?_eq_none.mp hr x hx)
    rw [hany]
    simp only [Bool.false_eq_true, false_or]
    unfold headerPathsDiffer
    cases ho : lines.find? (fun l => strStartsWith l "--- a/") with
    | none => simp
    | some oldPath =>
      cases hn : lines.find? (fun l => strStartsWith l "+++ b/") with
      | none => simp
      | some newPath =>
        show (if strDrop oldPath (strLength "--- a/")
                ≠ strDrop newPath (strLength "+++ b/")
              then some (strDrop oldPath (strLength "--- a/"))
              else none) ≠ none ↔
            strDrop oldPath (strLength "--- a/")
              ≠ strDrop newPath (strLength "+++ b/")
        by_cases hdiff : strDrop oldPath (strLength "--- a/")
            ≠ strDrop newPath (strLength "+++ b/")
        · rw [if_pos hdiff]
          simp [hdiff]
        · rw [if_neg hdiff]
          simp [hdiff]

/-- Fields of a successfully parsed file block: `previousFilePath` is
`extractPreviousFilePath` of the block's lines and `filePath` is the
extracted path. -/
theorem parseFileDiff_fields (block : String) (f : ParsedDiffFile)
    (hf : parseFileDiff block = some f) :
    f.previousFilePath = extractPreviousFilePath (strSplitNl block) ∧
    extractFilePath (strSplitNl block) = some f.filePath := by
  simp only [parseFileDiff] at hf
  cases hpath : extractFilePath (strSplitNl block) with
  | none => rw [hpath] at hf; cases hf
  | some filePath =>
    rw [hpath] at hf
    simp only at hf
    by_cases hrev : isReviewableFile filePath
    · rw [if_neg (by simp [hrev])] at hf
      by_cases hbin : (strSplitNl block).any (fun line =>
          strStartsWith line "Binary files" || strContains line "GIT binary patch")
      · rw [if_pos hbin] at hf
        injection hf with hf
        subst hf
        exact ⟨rfl, rfl⟩
      · rw [if_neg hbin] at hf
        injection hf with hf
        subst hf
        exact ⟨rfl, rfl⟩
    · rw [if_pos (by simp [hrev])] at hf
      cases hf

/-- The path-extraction loop when no `+++ b/` line exists but a
`+++ /dev/null` line does: the loop returns the old-path lookup. -/
theorem extractFilePathScan_dev_null (all : List String) :
    ∀ rest : List String,
      rest.find? (fun l => strStartsWith l "+++ b/") = none →
      rest.any (fun l => strStartsWith l "+++ /dev/null") = true →
      extractFilePathScan all rest = some (findOldPathLine all) := by
  intro rest
  induction rest with
  | nil => intro _ hany; cases hany
  | cons l rest ih =>
    intro hfind hany
    have hnb : strStartsWith l "+++ b/" = false := by
      by_contra hc
      rw [List.find?_cons_of_pos _ (by simpa using hc)] at hfind
      cases hfind
    rw [List.find?_cons_of_neg _ (by simp [hnb])] at hfind
    unfold extractFilePathScan
    rw [hnb]
    simp only [Bool.false_eq_true, if_false]
    by_cases hdev : strStartsWith l "+++ /dev/null" = true
    · rw [if_pos hdev]
    · rw [if_neg hdev]
      apply ih hfind
      rcases List.any_eq_true.mp hany with ⟨x, hx, hpx⟩
      rcases List.mem_cons.mp hx with hx | hx
      · exact absurd (hx ▸ hpx) hdev
      · exact List.any_eq_true.mpr ⟨x, hx, hpx⟩

/-- C8 amended – For a parser-produced file, `previousFilePath` is non-null
exactly when the file's block carries a `rename from ` marker or both header
paths are present and differ; and a deleted-style block (`+++ /dev/null`, no
`+++ b/` header, no rename marker) yields `previousFilePath = none` with the
old `--- a/` path carried in `filePath`. -/
theorem parseFileDiff_previousFilePath_characterization (block : String)
    (f : ParsedDiffFile) (hf : parseFileDiff block = some f) :
    (f.previousFilePath ≠ none ↔
      ((strSplitNl block).any (fun l => strStartsWith l "rename from ") = true ∨
        headerPathsDiffer (strSplitNl block))) ∧
    ((strSplitNl block).find? (fun l => strStartsWith l "+++ b/") = none →
     (strSplitNl block).any (fun l => strStartsWith l "+++ /dev/null") = true →
     (strSplitNl block).any (fun l => strStartsWith l "rename from ") = false →
     f.previousFilePath = none ∧
     ∃ o, (strSplitNl block).find? (fun l => strStartsWith l "--- a/") = some o ∧
       f.filePath = strDrop o (strLength "--- a/")) := by
  obtain ⟨hprev, hpath⟩ := parseFileDiff_fields block f hf
  constructor
  · rw [hprev]
    exact extractPreviousFilePath_ne_none_iff (strSplitNl block)
  · intro hnob hdev hnoren
    constructor
    · by_contra hne
      rcases (hprev ▸ extractPreviousFilePath_ne_none_iff
          (strSplitNl block)).mp hne with hren | hdiffer
      · rw [hnoren] at hren
        cases hren
      · unfold headerPathsDiffer at hdiffer
        rw [hnob] at hdiffer
        cases hfo : (strSplitNl block).find? (fun l => strStartsWith l "--- a/") with
        | none => rw [hfo] at hdiffer; exact hdiffer
        | some o => rw [hfo] at hdiffer; exact hdiffer
    · have hscan := extractFilePathScan_dev_null (strSplitNl block)
        (strSplitNl block) hnob hdev
      unfold extractFilePath at hpath
      rw [hscan] at hpath
      simp only at hpath
      unfold findOldPathLine at hpath
      cases hfo : (strSplitNl block).find? (fun l => strStartsWith l "--- a/") with
      | none => rw [hfo] at hpath; cases hpath
      | some o =>
        rw [hfo] at hpath
        injection hpath with hpath
        exact ⟨o, rfl, hpath.symm⟩

/-! ## C6 / C9 – orchestrator lemmas -/

/-- The `(repositoryId, commitSha)` idempotency key as a record predicate. -/
def reviewKey (repositoryId : Nat) (commitSha : String)
    (r : ReviewRecord) : Bool :=
  r.repositoryId = repositoryId && r.commitSha = commitSha

theorem repositories_createReviewRecord (st : DbState) (rid : Nat) (pr : Int)
    (sha : String) :
    (createReviewRecord st rid pr sha).2.repositories = st.repositories := rfl

theorem repositories_updateReviewStatus (st : DbState) (id : Nat)
    (s : ReviewStatus) :
    (updateReviewStatus st id s).repositories = st.repositories := rfl

theorem repositories_failReview (st : DbState) (id : Nat) (msg : String) :
    (failReview st id msg).repositories = st.repositories := rfl

theorem repositories_completeReview (st : DbState) (id : Nat) (summary : String)
    (n : Nat) (ms : Int) :
    (completeReview st id summary n ms).repositories = st.repositories := rfl

theorem repositories_saveReviewComments (st : DbState)
    (cs : List SavedComment) :
    (saveReviewComments st cs).repositories = st.repositories := rfl

theorem reviews_saveReviewComments (st : DbState) (cs : List SavedComment) :
    (saveReviewComments st cs).reviews = st.reviews := rfl

theorem filter_reviewKey_map (l : List ReviewRecord)
    (g : ReviewRecord → ReviewRecord)
    (hg : ∀ r, (g r).repositoryId = r.repositoryId ∧
      (g r).commitSha = r.commitSha) (rid : Nat) (sha : String) :
    (l.map g).filter (reviewKey rid sha)
      = (l.filter (reviewKey rid sha)).map g := by
  induction l with
  | nil => rfl
  | cons x rest ih =>
    simp only [List.map_cons, List.filter_cons]
    have hkey : reviewKey rid sha (g x) = reviewKey rid sha x := by
      unfold reviewKey
      rw [(hg x).1, (hg x).2]
    rw [hkey]
    by_cases hp : reviewKey rid sha x = true
    · rw [hp]
      simp only [if_true, List.map_cons, ih]
    · rw [Bool.eq_false_iff.mpr hp]
      simp only [Bool.false_eq_true, if_false, ih]

theorem filter_reviewKey_nil_of_find_none (st : DbState) (rid : Nat)
    (sha : String)
    (hnone : findExistingReviewByCommitSha st rid sha = none) :
    st.reviews.filter (reviewKey rid sha) = [] := by
  unfold findExistingReviewByCommitSha at hnone
  rw [List.filter_eq_nil_iff]
  intro r hr
  cases hfind : st.reviews.find? (fun r =>
      r.repositoryId = rid && r.commitSha = sha) with
  | some x => rw [hfind] at hnone; cases hnone
  | none =>
    have := List.find?_eq_none.mp hfind r hr
    simpa [reviewKey] using this

/-- The record a fresh `createReviewRecord` inserts. -/
def freshReviewRecord (st : DbState) (rid : Nat) (pr : Int) (sha : String) :
    ReviewRecord :=
  { id := st.nextReviewId, repositoryId := rid, pullRequestNumber := pr,
    commitSha := sha, status := .PENDING, summary := none,
    issuesFound := none, processingTimeMs := none }

theorem filter_reviewKey_create (st : DbState) (rid : Nat) (pr : Int)
    (sha : String)
    (hnone : findExistingReviewByCommitSha st rid sha = none) :
    (createReviewRecord st rid pr sha).2.reviews.filter (reviewKey rid sha)
      = [freshReviewRecord st rid pr sha] := by
  show ((st.reviews ++ [freshReviewRecord st rid pr sha]).filter
    (reviewKey rid sha)) = [freshReviewRecord st rid pr sha]
  rw [List.filter_append, filter_reviewKey_nil_of_find_none st rid sha hnone]
  simp [reviewKey, freshReviewRecord]

/-- Source `enrichDiffWithContext` never returns the error arm. -/
theorem enrichDiffWithContext_ok (githubService : GitHubService)
    (astService : AstService) (parsedDiff : ParsedDiff)
    (owner repo commitSha : String) :
    ∃ chunks ev, enrichDiffWithContext githubService astService parsedDiff
      owner repo commitSha = (.ok chunks, ev) := by
  simp only [enrichDiffWithContext]
  split
  · exact ⟨[], _, rfl⟩
  · exact ⟨_, _, rfl⟩

theorem filter_key_updateReviewStatus (st : DbState) (id : Nat)
    (s : ReviewStatus) (rid : Nat) (sha : String) :
    (updateReviewStatus st id s).reviews.filter (reviewKey rid sha)
      = (st.reviews.filter (reviewKey rid sha)).map
          (fun r => if r.id = id then { r with status := s } else r) :=
  filter_reviewKey_map _ _
    (fun r => by by_cases h : r.id = id <;> simp [h]) rid sha

theorem filter_key_failReview (st : DbState) (id : Nat) (msg : String)
    (rid : Nat) (sha : String) :
    (failReview st id msg).reviews.filter (reviewKey rid sha)
      = (st.reviews.filter (reviewKey rid sha)).map
          (fun r => if r.id = id then
            { r with status := .FAILED,
                     summary := some ("Review failed: " ++ msg) }
          else r) :=
  filter_reviewKey_map _ _
    (fun r => by by_cases h : r.id = id <;> simp [h]) rid sha

theorem filter_key_completeReview (st : DbState) (id : Nat) (summary : String)
    (n : Nat) (ms : Int) (rid : Nat) (sha : String) :
    (completeReview st id summary n ms).reviews.filter (reviewKey rid sha)
      = (st.reviews.filter (reviewKey rid sha)).map
          (fun r => if r.id = id then
            { r with status := .COMPLETED, summary := some summary,
                     issuesFound := some n, processingTimeMs := some ms }
          else r) :=
  filter_reviewKey_map _ _
    (fun r => by by_cases h : r.id = id <;> simp [h]) rid sha

/-- A fresh run of `executeReview` (repository found, no existing review for
the key) leaves the repositories untouched and leaves exactly one review
record for the `(repositoryId, commitSha)` key, in a terminal
COMPLETED/FAILED status. -/
theorem executeReview_fresh_state (request : ReviewRequest)
    (gh : GitHubService) (llm : LLMService) (ast : AstService)
    (t0 t1 : Int) (st : DbState) (owner repo : String) (repoId : Nat)
    (hname : parseRepositoryFullName request.repositoryFullName
      = .ok (owner, repo))
    (hrepo : findRepositoryByFullName st request.repositoryFullName
      = some repoId)
    (hnone : findExistingReviewByCommitSha st repoId request.commitSha
      = none) :
    (executeReview request gh llm ast t0 t1 st).2.1.repositories
      = st.repositories ∧
    ∃ rec,
      (executeReview request gh llm ast t0 t1 st).2.1.reviews.filter
        (reviewKey repoId request.commitSha) = [rec] ∧
      (rec.status = .COMPLETED ∨ rec.status = .FAILED) := by
  have hlook : lookupRepositoryAndCheckIdempotency st
      request.repositoryFullName request.commitSha = .ok repoId := by
    simp only [lookupRepositoryAndCheckIdempotency, hrepo, hnone]
  have hcreate := filter_reviewKey_create st repoId request.pullRequestNumber
    request.commitSha hnone
  cases hD : gh.fetchPullRequestDiff owner repo request.pullRequestNumber with
  | error e =>
    simp only [executeReview, hname, hlook, fetchAndParseDiff, hD]
    refine ⟨rfl, ?_⟩
    rw [filter_key_failReview, filter_key_updateReviewStatus, hcreate]
    refine ⟨_, by simp [createReviewRecord, freshReviewRecord]; rfl, ?_⟩
    exact Or.inr rfl
  | ok diffText =>
    cases hP : parseUnifiedDiff diffText with
    | error pe =>
      simp only [executeReview, hname, hlook, fetchAndParseDiff, hD, hP]
      refine ⟨rfl, ?_⟩
      rw [filter_key_failReview, filter_key_updateReviewStatus, hcreate]
      refine ⟨_, by simp [createReviewRecord, freshReviewRecord]; rfl, ?_⟩
      exact Or.inr rfl
    | ok parsedDiff =>
      by_cases hF : parsedDiff.files.length = 0
      · simp only [executeReview, hname, hlook, fetchAndParseDiff, hD, hP, hF,
          if_pos]
        refine ⟨rfl, ?_⟩
        rw [filter_key_completeReview, filter_key_updateReviewStatus, hcreate]
        refine ⟨_, by simp [createReviewRecord, freshReviewRecord]; rfl, ?_⟩
        exact Or.inl rfl
      · obtain ⟨chunks, evE, hE⟩ := enrichDiffWithContext_ok gh ast parsedDiff
          owner repo request.commitSha
        by_cases hC : chunks.length = 0
        · simp only [executeReview, hname, hlook, fetchAndParseDiff, hD, hP,
            if_neg hF, hE, hC, if_pos]
          refine ⟨rfl, ?_⟩
          rw [filter_key_completeReview, filter_key_updateReviewStatus,
            hcreate]
          refine ⟨_, by simp [createReviewRecord, freshReviewRecord]; rfl, ?_⟩
          exact Or.inl rfl
        · rcases hA : analyzeAllChunks llm chunks with ⟨ares, aev⟩
          cases ares with
          | error ae =>
            simp only [executeReview, hname, hlook, fetchAndParseDiff, hD, hP,
              if_neg hF, hE, if_neg hC, hA]
            refine ⟨rfl, ?_⟩
            rw [filter_key_failReview, filter_key_updateReviewStatus, hcreate]
            refine ⟨_, by simp [createReviewRecord, freshReviewRecord]; rfl,
              ?_⟩
            exact Or.inr rfl
          | ok llmResult =>
            simp only [executeReview, hname, hlook, fetchAndParseDiff, hD, hP,
              if_neg hF, hE, if_neg hC, hA]
            refine ⟨rfl, ?_⟩
            rw [filter_key_completeReview]
            rw [show (postAndSaveReviewResults gh owner repo request
                (createReviewRecord st repoId request.pullRequestNumber
                  request.commitSha).1 llmResult.findings parsedDiff
                llmResult.summary
                (updateReviewStatus (createReviewRecord st repoId
                  request.pullRequestNumber request.commitSha).2
                  (createReviewRecord st repoId request.pullRequestNumber
                    request.commitSha).1 .PROCESSING)).1.reviews
              = (updateReviewStatus (createReviewRecord st repoId
                  request.pullRequestNumber request.commitSha).2
                  (createReviewRecord st repoId request.pullRequestNumber
                    request.commitSha).1 .PROCESSING).reviews from rfl]
            rw [filter_key_updateReviewStatus, hcreate]
            refine ⟨_, by simp [createReviewRecord, freshReviewRecord]; rfl,
              ?_⟩
            exact Or.inl rfl

/-- C6 – Idempotency of the orchestrator.  With the repository resolvable:
(1) if a review already exists for the `(repository, commitSha)` key,
`executeReview` returns the distinct `REVIEW_ALREADY_EXISTS` outcome with the
database unchanged and no side effect performed; (2) on a fresh key, the
first call leaves exactly one record for the key, in a terminal
COMPLETED/FAILED status, and a second identical call returns
`REVIEW_ALREADY_EXISTS` without further effects. -/
theorem executeReview_idempotency (request : ReviewRequest)
    (gh : GitHubService) (llm : LLMService) (ast : AstService)
    (t0 t1 t2 t3 : Int) (st : DbState) (owner repo : String) (repoId : Nat)
    (hname : parseRepositoryFullName request.repositoryFullName
      = .ok (owner, repo))
    (hrepo : findRepositoryByFullName st request.repositoryFullName
      = some repoId) :
    (findExistingReviewByCommitSha st repoId request.commitSha ≠ none →
      executeReview request gh llm ast t0 t1 st
        = (.error .REVIEW_ALREADY_EXISTS, st, [])) ∧
    (findExistingReviewByCommitSha st repoId request.commitSha = none →
      ((executeReview request gh llm ast t0 t1 st).2.1.reviews.filter
          (reviewKey repoId request.commitSha)).length = 1 ∧
      (∀ r ∈ (executeReview request gh llm ast t0 t1 st).2.1.reviews.filter
          (reviewKey repoId request.commitSha),
        r.status = .COMPLETED ∨ r.status = .FAILED) ∧
      executeReview request gh llm ast t2 t3
          ((executeReview request gh llm ast t0 t1 st).2.1)
        = (.error .REVIEW_ALREADY_EXISTS,
           (executeReview request gh llm ast t0 t1 st).2.1, [])) := by
  constructor
  · intro hex
    obtain ⟨x, hx⟩ := Option.ne_none_iff_exists'.mp hex
    have hlook : lookupRepositoryAndCheckIdempotency st
        request.repositoryFullName request.commitSha
        = .error .REVIEW_ALREADY_EXISTS := by
      simp only [lookupRepositoryAndCheckIdempotency, hrepo, hx]
    simp only [executeReview, hname, hlook]
  · intro hnone
    obtain ⟨hrepos, rec, hfilter, hterm⟩ := executeReview_fresh_state request
      gh llm ast t0 t1 st owner repo repoId hname hrepo hnone
    refine ⟨by rw [hfilter]; rfl, ?_, ?_⟩
    · intro r hr
      rw [hfilter] at hr
      rw [List.mem_singleton.mp hr]
      exact hterm
    · set st1 := (executeReview request gh llm ast t0 t1 st).2.1 with hst1
      have hrepo1 : findRepositoryByFullName st1
          request.repositoryFullName = some repoId := by
        unfold findRepositoryByFullName at hrepo ⊢
        rw [hrepos]
        exact hrepo
      have hex1 : findExistingReviewByCommitSha st1 repoId
          request.commitSha ≠ none := by
        intro hco
        have hnil := filter_reviewKey_nil_of_find_none _ _ _ hco
        rw [hfilter] at hnil
        cases hnil
      obtain ⟨x, hx⟩ := Option.ne_none_iff_exists'.mp hex1
      have hlook1 : lookupRepositoryAndCheckIdempotency st1
          request.repositoryFullName request.commitSha
          = .error .REVIEW_ALREADY_EXISTS := by
        simp only [lookupRepositoryAndCheckIdempotency, hrepo1, hx]
      simp only [executeReview, hname, hlook1]

set_option maxRecDepth 4096 in
/-- C9 – On the success path (diff fetched and parsed, nonempty files and
chunks, analysis succeeded) with every post call failing, `executeReview`
still returns the successful outcome and the review record for the key is
COMPLETED, never FAILED — but the persisted comments are exactly the input
state's: no finding, mapped or unmapped, is ever written, because the
engine's `mappingResult.success` guard is always falsy on the mapper's
record and substitutes the empty lists. -/
theorem executeReview_post_failure_no_persistence (request : ReviewRequest)
    (gh : GitHubService) (llm : LLMService) (ast : AstService)
    (t0 t1 : Int) (st : DbState) (owner repo : String) (repoId : Nat)
    (diffText : String) (parsedDiff : ParsedDiff)
    (chunks : List ReviewChunk) (llmResult : LlmAnalysisResult)
    (ghe : GitHubError)
    (hname : parseRepositoryFullName request.repositoryFullName
      = .ok (owner, repo))
    (hrepo : findRepositoryByFullName st request.repositoryFullName
      = some repoId)
    (hnone : findExistingReviewByCommitSha st repoId request.commitSha
      = none)
    (hfetch : gh.fetchPullRequestDiff owner repo request.pullRequestNumber
      = .ok diffText)
    (hparse : parseUnifiedDiff diffText = .ok parsedDiff)
    (hfiles : ¬parsedDiff.files.length = 0)
    (henrich : (enrichDiffWithContext gh ast parsedDiff owner repo
      request.commitSha).1 = .ok chunks)
    (hchunks : ¬chunks.length = 0)
    (hllm : (analyzeAllChunks llm chunks).1 = .ok llmResult)
    (hpost : ∀ payload, gh.postPullRequestReview owner repo
      request.pullRequestNumber payload = .error ghe) :
    (executeReview request gh llm ast t0 t1 st).1
      = .ok { reviewId := st.nextReviewId,
              issuesFound := llmResult.findings.length,
              processingTimeMs := t1 - t0,
              summary := llmResult.summary } ∧
    ((executeReview request gh llm ast t0 t1 st).2.1.reviews.filter
        (reviewKey repoId request.commitSha)).map ReviewRecord.status
      = [.COMPLETED] ∧
    (executeReview request gh llm ast t0 t1 st).2.1.comments
      = st.comments := by
  have hlook : lookupRepositoryAndCheckIdempotency st
      request.repositoryFullName request.commitSha = .ok repoId := by
    simp only [lookupRepositoryAndCheckIdempotency, hrepo, hnone]
  have hcreate := filter_reviewKey_create st repoId request.pullRequestNumber
    request.commitSha hnone
  obtain ⟨chunks0, evE, hE⟩ := enrichDiffWithContext_ok gh ast parsedDiff
    owner repo request.commitSha
  rw [hE] at henrich
  have hch : chunks0 = chunks := by
    injection henrich
  subst hch
  rcases hA : analyzeAllChunks llm chunks0 with ⟨ares, aev⟩
  rw [hA] at hllm
  have har : ares = .ok llmResult := hllm
  subst har
  simp only [executeReview, hname, hlook, fetchAndParseDiff, hfetch, hparse,
    if_neg hfiles, hE, if_neg hchunks, hA]
  refine ⟨rfl, ?_, ?_⟩
  · rw [filter_key_completeReview]
    rw [show (postAndSaveReviewResults gh owner repo request
        (createReviewRecord st repoId request.pullRequestNumber
          request.commitSha).1 llmResult.findings parsedDiff
        llmResult.summary
        (updateReviewStatus (createReviewRecord st repoId
          request.pullRequestNumber request.commitSha).2
          (createReviewRecord st repoId request.pullRequestNumber
            request.commitSha).1 .PROCESSING)).1.reviews
      = (updateReviewStatus (createReviewRecord st repoId
          request.pullRequestNumber request.commitSha).2
          (createReviewRecord st repoId request.pullRequestNumber
            request.commitSha).1 .PROCESSING).reviews from rfl]
    rw [filter_key_updateReviewStatus, hcreate]
    simp [createReviewRecord, freshReviewRecord]
  · show st.comments ++ ([] : List SavedComment) = st.comments
    exact List.append_nil _

/-! ## Witnesses -/

theorem buildDiffHunk_replay_counts_witness :
    (buildDiffHunk "@@ -1,2 +1,3 @@" ⟨1, some 2, 1, some 3⟩
        [" ctx", "+a", "+b", "-x"]).oldCount
      = ([" ctx", "+a", "+b", "-x"].countP isOldRaw : Int) ∧
    (buildDiffHunk "@@ -1,2 +1,3 @@" ⟨1, some 2, 1, some 3⟩
        [" ctx", "+a", "+b", "-x"]).newCount
      = ([" ctx", "+a", "+b", "-x"].countP isNewRaw : Int) ∧
    replayHunkCounters
        (buildDiffHunk "@@ -1,2 +1,3 @@" ⟨1, some 2, 1, some 3⟩
          [" ctx", "+a", "+b", "-x"]).lines
        ((buildDiffHunk "@@ -1,2 +1,3 @@" ⟨1, some 2, 1, some 3⟩
            [" ctx", "+a", "+b", "-x"]).oldStart,
         (buildDiffHunk "@@ -1,2 +1,3 @@" ⟨1, some 2, 1, some 3⟩
            [" ctx", "+a", "+b", "-x"]).newStart)
      = ((buildDiffHunk "@@ -1,2 +1,3 @@" ⟨1, some 2, 1, some 3⟩
            [" ctx", "+a", "+b", "-x"]).oldStart +
           (buildDiffHunk "@@ -1,2 +1,3 @@" ⟨1, some 2, 1, some 3⟩
             [" ctx", "+a", "+b", "-x"]).oldCount,
         (buildDiffHunk "@@ -1,2 +1,3 @@" ⟨1, some 2, 1, some 3⟩
            [" ctx", "+a", "+b", "-x"]).newStart +
           (buildDiffHunk "@@ -1,2 +1,3 @@" ⟨1, some 2, 1, some 3⟩
             [" ctx", "+a", "+b", "-x"]).newCount) :=
  ⟨by decide, by decide,
   buildDiffHunk_replay_counts "@@ -1,2 +1,3 @@" ⟨1, some 2, 1, some 3⟩
     [" ctx", "+a", "+b", "-x"] (by decide) (by decide)⟩

/-- A one-file context used by the C3 witness. -/
def w3File : FileReviewContext :=
  { filePath := "a.ts", language := none, changeType := .modified,
    enrichedHunks := [], imports := [], fullFileContent := none }

theorem chunkFileContexts_budget_invariant_witness :
    0 < 1 ∧
    ((∀ chunk ∈ chunkFileContexts [w3File] 1,
        chunk.estimatedTokenCount = sumTokens chunk.files ∧
        (1 < chunk.files.length → chunk.estimatedTokenCount ≤ 1)) ∧
     ((chunkFileContexts [w3File] 1).map ReviewChunk.files).flatten
        = [w3File] ∧
     (∀ chunk ∈ chunkFileContexts [w3File] 1, ∀ f ∈ chunk.files,
        1 < estimateFileTokenCount f → chunk.files = [f])) :=
  ⟨by decide, chunkFileContexts_budget_invariant [w3File] 1 (by decide)⟩

def w4Scope : AstScope :=
  { type := .function, name := "f", startLine := 1, endLine := 10 }

def w4Hunk : DiffHunk :=
  { oldStart := 1, oldCount := 1, newStart := 5, newCount := 2,
    header := "@@ -1 +5,2 @@", lines := [] }

theorem findEnclosingScopesForHunk_mem_iff_witness :
    w4Scope ∈ [w4Scope] ∧
    (w4Scope ∈ findEnclosingScopesForHunk w4Hunk [w4Scope] ↔
      w4Scope.startLine ≤ w4Hunk.newStart + w4Hunk.newCount - 1 ∧
      w4Scope.endLine ≥ w4Hunk.newStart) :=
  ⟨by decide,
   findEnclosingScopesForHunk_mem_iff w4Hunk [w4Scope] w4Scope (by decide)⟩

theorem parseUnifiedDiff_error_iff_empty_witness :
    strTrim "x" ≠ "" ∧ (∃ d, parseUnifiedDiff "x" = .ok d) :=
  ⟨by decide, (parseUnifiedDiff_error_iff_empty "x").2 (by decide)⟩

def w7Diff : String :=
  "diff --git a/x.ts b/x.ts\n--- a/x.ts\n+++ b/x.ts\n@@ -1 +1,2 @@\n ctx\n+new"

def w7Line : DiffLine :=
  { type := .added, content := "new", newLineNumber := some 2,
    oldLineNumber := none }

def w7Hunk : DiffHunk :=
  { oldStart := 1, oldCount := 1, newStart := 1, newCount := 2,
    header := "@@ -1 +1,2 @@",
    lines := [{ type := .context, content := "ctx",
                newLineNumber := some 1, oldLineNumber := some 1 }, w7Line] }

def w7File : ParsedDiffFile :=
  { filePath := "x.ts", previousFilePath := none, changeType := .modified,
    language := some .typescript, hunks := [w7Hunk], isBinary := false }

theorem parseUnifiedDiff_lineNumbers_witness :
    diffLineNumbersInvariant w7Line :=
  parseUnifiedDiff_lineNumbers w7Diff ⟨[w7File]⟩ rfl w7File (by decide)
    w7Hunk (by decide) w7Line (by decide)

def w8Block : String := "--- a/old.ts\n+++ /dev/null\n@@ -1 +0,0 @@\n-gone"

def w8File : ParsedDiffFile :=
  { filePath := "old.ts", previousFilePath := none, changeType := .deleted,
    language := some .typescript,
    hunks := [{ oldStart := 1, oldCount := 1, newStart := 0, newCount := 0,
                header := "@@ -1 +0,0 @@",
                lines := [{ type := .removed, content := "gone",
                            newLineNumber := none,
                            oldLineNumber := some 1 }] }],
    isBinary := false }

theorem parseFileDiff_previousFilePath_characterization_witness :
    parseFileDiff w8Block = some w8File ∧
    (w8File.previousFilePath = none ∧
     ∃ o, (strSplitNl w8Block).find? (fun l => strStartsWith l "--- a/")
        = some o ∧
       w8File.filePath = strDrop o (strLength "--- a/")) :=
  ⟨rfl,
   (parseFileDiff_previousFilePath_characterization w8Block w8File rfl).2
     (by decide) (by decide) (by decide)⟩

def w10Diff : String :=
  "diff --git a/x.ts b/x.ts\n--- a/x.ts\n+++ b/x.ts\n@@ -1 +1 @@\n-old\n+new2"

def w10Parsed : ParsedDiff :=
  ⟨[{ filePath := "x.ts", previousFilePath := none, changeType := .modified,
      language := some .typescript,
      hunks := [{ oldStart := 1, oldCount := 1, newStart := 1, newCount := 1,
                  header := "@@ -1 +1 @@",
                  lines := [{ type := .removed, content := "old",
                              newLineNumber := none, oldLineNumber := some 1 },
                            { type := .added, content := "new2",
                              newLineNumber := some 1,
                              oldLineNumber := none }] }],
      isBinary := false }]⟩

def w10Finding : ReviewFinding :=
  { filePath := "x.ts", lineNumber := 1, category := .BUGS,
    severity := .WARNING, message := "msg", suggestion := "",
    confidence := 1 }

def w10Comment : MappedReviewComment :=
  { finding := w10Finding, path := "x.ts", line := 1, side := .LEFT,
    formattedBody := "🟡 **Warning** | Bug Risk\n\nmsg" }

theorem mapSingleFinding_left_of_parsed_witness :
    (∃ f ∈ w10Parsed.files, ∃ hk ∈ f.hunks, ∃ l ∈ hk.lines,
      l.type = .removed ∧ l.oldLineNumber = some w10Finding.lineNumber ∧
      l.newLineNumber = none ∧ w10Comment.line = w10Finding.lineNumber) ∧
    (∀ f ∈ w10Parsed.files, ∀ hk ∈ f.hunks, ∀ l ∈ hk.lines,
      l.type = .removed → l.newLineNumber ≠ some w10Finding.lineNumber) :=
  mapSingleFinding_left_of_parsed w10Diff w10Parsed rfl w10Finding
    w10Comment rfl rfl

def w6Request : ReviewRequest :=
  { repositoryFullName := "o/r", pullRequestNumber := 1, commitSha := "sha" }

def w6State : DbState :=
  { repositories := [{ id := 7, fullName := "o/r", isEnabled := true }],
    reviews := [], comments := [], nextReviewId := 0 }

def w6GitHub : GitHubService :=
  { fetchPullRequestDiff := fun _ _ _ => .error .GITHUB_NOT_FOUND,
    fetchFileContent := fun _ _ _ _ => .error .GITHUB_NOT_FOUND,
    postPullRequestReview := fun _ _ _ _ => .error .GITHUB_NOT_FOUND }

def w6Llm : LLMService := { analyzeReviewChunk := fun _ => .error .LLM_TIMEOUT }

def w6Ast : AstService :=
  { initializeAstParser := .error .AST_INIT_FAILED,
    parseFileAst := fun _ _ _ => .error .AST_PARSE_FAILED }

theorem executeReview_idempotency_witness :
    ((executeReview w6Request w6GitHub w6Llm w6Ast 0 0 w6State).2.1.reviews.filter
        (reviewKey 7 "sha")).length = 1 ∧
    executeReview w6Request w6GitHub w6Llm w6Ast 0 0
        ((executeReview w6Request w6GitHub w6Llm w6Ast 0 0 w6State).2.1)
      = (.error .REVIEW_ALREADY_EXISTS,
         (executeReview w6Request w6GitHub w6Llm w6Ast 0 0 w6State).2.1, []) :=
  ⟨((executeReview_idempotency w6Request w6GitHub w6Llm w6Ast 0 0 0 0 w6State
      "o" "r" 7 rfl rfl).2 rfl).1,
   ((executeReview_idempotency w6Request w6GitHub w6Llm w6Ast 0 0 0 0 w6State
      "o" "r" 7 rfl rfl).2 rfl).2.2⟩

def w9Diff : String :=
  "diff --git a/x.ts b/x.ts\n--- a/x.ts\n+++ b/x.ts\n@@ -1 +1,2 @@\n ctx\n+new"

def w9Finding : ReviewFinding :=
  { filePath := "x.ts", lineNumber := 2, category := .SECURITY,
    severity := .CRITICAL, message := "issue", suggestion := "",
    confidence := 1 }

def w9Request : ReviewRequest :=
  { repositoryFullName := "o/r", pullRequestNumber := 1, commitSha := "sha" }

def w9State : DbState :=
  { repositories := [{ id := 7, fullName := "o/r", isEnabled := true }],
    reviews := [], comments := [], nextReviewId := 0 }

def w9GitHub : GitHubService :=
  { fetchPullRequestDiff := fun _ _ _ => .ok w9Diff,
    fetchFileContent := fun _ _ _ _ => .error .GITHUB_NOT_FOUND,
    postPullRequestReview := fun _ _ _ _ => .error .GITHUB_RATE_LIMITED }

def w9Llm : LLMService :=
  { analyzeReviewChunk := fun _ =>
      .ok { findings := [w9Finding], summary := "sum",
            tokenUsage := { inputTokens := 1, outputTokens := 1 } } }

def w9Ast : AstService :=
  { initializeAstParser := .error .AST_INIT_FAILED,
    parseFileAst := fun _ _ _ => .error .AST_PARSE_FAILED }

def w9Parsed : ParsedDiff := (parseUnifiedDiff w9Diff).toOption.getD ⟨[]⟩

def w9Chunks : List ReviewChunk :=
  (enrichDiffWithContext w9GitHub w9Ast w9Parsed "o" "r" "sha").1.toOption.getD
    []

def w9LlmResult : LlmAnalysisResult :=
  ((analyzeAllChunks w9Llm w9Chunks).1).toOption.getD
    { findings := [], summary := "", totalInputTokens := 0,
      totalOutputTokens := 0 }

theorem executeReview_post_failure_no_persistence_witness :
    (mapFindingsToGitHubComments w9LlmResult.findings
        w9Parsed).mappedComments ≠ [] ∧
    (executeReview w9Request w9GitHub w9Llm w9Ast 0 5 w9State).1
      = .ok { reviewId := 0, issuesFound := 1, processingTimeMs := 5,
              summary := "sum" } ∧
    ((executeReview w9Request w9GitHub w9Llm w9Ast 0 5
        w9State).2.1.reviews.filter (reviewKey 7 "sha")).map
      ReviewRecord.status = [.COMPLETED] ∧
    (executeReview w9Request w9GitHub w9Llm w9Ast 0 5 w9State).2.1.comments
      = w9State.comments :=
  ⟨by decide,
   (executeReview_post_failure_no_persistence w9Request w9GitHub w9Llm w9Ast
      0 5 w9State "o" "r" 7 w9Diff w9Parsed w9Chunks w9LlmResult
      .GITHUB_RATE_LIMITED rfl rfl rfl rfl rfl (by decide) rfl (by decide)
      rfl (fun _ => rfl)).1,
   (executeReview_post_failure_no_persistence w9Request w9GitHub w9Llm w9Ast
      0 5 w9State "o" "r" 7 w9Diff w9Parsed w9Chunks w9LlmResult
      .GITHUB_RATE_LIMITED rfl rfl rfl rfl rfl (by decide) rfl (by decide)
      rfl (fun _ => rfl)).2.1,
   (executeReview_post_failure_no_persistence w9Request w9GitHub w9Llm w9Ast
      0 5 w9State "o" "r" 7 w9Diff w9Parsed w9Chunks w9LlmResult
      .GITHUB_RATE_LIMITED rfl rfl rfl rfl rfl (by decide) rfl (by decide)
      rfl (fun _ => rfl)).2.2⟩

end AiReview
